import Mathlib

/-!
Shallow embedding of a small table-oriented storage engine (Go sources:
`pkg/page`, `pkg/record`, `pkg/disk`, `pkg/bptree`, `pkg/catalog`,
`pkg/layer`) together with proofs about its specification.

Modelling conventions:
* A Go `byte` is a natural number; every byte read out of, or stored into,
  a data region is reduced `% 256` (mirroring the `byte` type).
* Go `int16` / `int32` header fields are read from the little-endian byte
  image and interpreted with two's-complement sign (`goInt16`, `goInt32`),
  exactly as `int16(binary.LittleEndian.Uint16(...))` does; stores reduce
  the value modulo `2^16` / `2^32`, exactly as `uint16(v)` does.
* A page's 4096-byte array is modelled as a total function `Nat → Nat`;
  all operations proved about only touch indices below 4096.
* Nil-pointer dereference on a missing per-table index (a Go runtime
  panic) is modelled by the distinguished outcome `RunRes.nilPanic`.
* `error` values are modelled by the inductive `Err`, one constructor per
  distinct error site.
-/

namespace StorageModel

/-- Abstract error kinds, one per `fmt.Errorf` site in the sources. -/
inductive Err where
  | pageFull        -- "not enough space in page"
  | noSuchSlot      -- "slot %d does not exist"
  | emptySlot       -- "slot %d is empty"
  | corruptSlot     -- "invalid slot data" / "slot data exceeds page bounds"
  | sizeMismatch    -- "record size mismatch"
  | alreadyEmpty    -- "slot %d is already empty"
  | notOpen         -- "storage layer is not open"
  | unknownTable    -- "table %s does not exist"
  | notFound        -- "record %d not found" / "record id %d not found"
  | loadFailed      -- "failed to load page %d"
  | eof             -- short positional read in ReadPage
  | valueCountMismatch
  | nullNotAllowed
  | typeMismatch
  | stringTooLong
  | unsupportedType
  | emptyData
  | insufficientBitmap
  | truncated       -- "insufficient data for int/float/string"
  deriving DecidableEq, Repr

/-! ## Little-endian byte primitives -/

/-- Two's-complement reading of a 16-bit pattern, `int16(uint16bits)`. -/
def goInt16 (v : Nat) : Int :=
  if v % 65536 < 32768 then ((v % 65536 : Nat) : Int) else ((v % 65536 : Nat) : Int) - 65536

/-- Two's-complement reading of a 32-bit pattern, `int32(uint32bits)`. -/
def goInt32 (v : Nat) : Int :=
  if v % 4294967296 < 2147483648 then ((v % 4294967296 : Nat) : Int)
  else ((v % 4294967296 : Nat) : Int) - 4294967296

/-- `binary.LittleEndian.Uint16(d[i:i+2])` over a byte function. -/
def readU16 (d : Nat → Nat) (i : Nat) : Nat :=
  d i % 256 + 256 * (d (i + 1) % 256)

/-- `binary.LittleEndian.Uint32(d[i:i+4])` over a byte function. -/
def readU32 (d : Nat → Nat) (i : Nat) : Nat :=
  d i % 256 + 256 * (d (i + 1) % 256) + 65536 * (d (i + 2) % 256)
    + 16777216 * (d (i + 3) % 256)

/-- Byte `k` of the 16-bit pattern `uint16(v)` of an integer `v`. -/
def u16byte (v : Int) (k : Nat) : Nat :=
  (v % 65536).toNat / 256 ^ k % 256

/-- Byte `k` of the 32-bit pattern `uint32(v)` of an integer `v`. -/
def u32byte (v : Int) (k : Nat) : Nat :=
  (v % 4294967296).toNat / 256 ^ k % 256

/-! ## Page (pkg/page, `page.go`) -/

/-- `PageSize = 4096`. -/
def PageSize : Nat := 4096

/-- `PageHeaderSize = 18`. -/
def PageHeaderSize : Nat := 18

/-- `SlotEntrySize = 4`. -/
def SlotEntrySize : Nat := 4

/-- The decoded page header (`readHeader`); fields carry the Go `int16` /
`int32` values as mathematical integers. -/
structure PageHeader where
  PageID : Int
  SlotCount : Int
  FreeStart : Int
  FreeEnd : Int
  NextPageID : Int
  PrevPageID : Int
  deriving Repr

/-- A decoded slot-directory entry (`readSlot`). -/
structure SlotEntry where
  Offset : Int
  Size : Int
  deriving Repr, DecidableEq

/-- `page.Page`: id, 4096-byte image (as a byte function), dirty flag. -/
structure Page where
  pageID : Int
  data : Nat → Nat
  dirty : Bool

/-- `readHeader`. -/
def Page.readHeader (p : Page) : PageHeader :=
  { PageID := goInt32 (readU32 p.data 0)
    SlotCount := goInt16 (readU16 p.data 4)
    FreeStart := goInt16 (readU16 p.data 6)
    FreeEnd := goInt16 (readU16 p.data 8)
    NextPageID := goInt32 (readU32 p.data 10)
    PrevPageID := goInt32 (readU32 p.data 14) }

/-- `writeHeader`: the six little-endian puts at offsets 0,4,6,8,10,14,
expressed as one byte function. -/
def writeHeaderBytes (d : Nat → Nat) (h : PageHeader) : Nat → Nat :=
  fun j =>
    if j < 4 then u32byte h.PageID j
    else if j < 6 then u16byte h.SlotCount (j - 4)
    else if j < 8 then u16byte h.FreeStart (j - 6)
    else if j < 10 then u16byte h.FreeEnd (j - 8)
    else if j < 14 then u32byte h.NextPageID (j - 10)
    else if j < 18 then u32byte h.PrevPageID (j - 14)
    else d j

/-- `readSlot(slotID)`: two 16-bit reads at `18 + 4*slotID`. -/
def Page.readSlot (p : Page) (slotID : Nat) : SlotEntry :=
  { Offset := goInt16 (readU16 p.data (PageHeaderSize + slotID * SlotEntrySize))
    Size := goInt16 (readU16 p.data (PageHeaderSize + slotID * SlotEntrySize + 2)) }

/-- `writeSlot(slotID, slot)`: two little-endian puts at `18 + 4*slotID`. -/
def writeSlotBytes (d : Nat → Nat) (slotID : Nat) (off sz : Int) : Nat → Nat :=
  fun j =>
    if j = PageHeaderSize + slotID * SlotEntrySize then u16byte off 0
    else if j = PageHeaderSize + slotID * SlotEntrySize + 1 then u16byte off 1
    else if j = PageHeaderSize + slotID * SlotEntrySize + 2 then u16byte sz 0
    else if j = PageHeaderSize + slotID * SlotEntrySize + 3 then u16byte sz 1
    else d j

/-- `copy(d[off:off+b.length], b)`: overwrite the region `[off, off+|b|)`
with the record bytes (each reduced mod 256, mirroring the byte type). -/
def copyBytes (d : Nat → Nat) (off : Int) (b : List Nat) : Nat → Nat :=
  fun j =>
    if off ≤ (j : Int) ∧ (j : Int) < off + b.length then
      b.getD ((j : Int) - off).toNat 0 % 256
    else d j

/-- `NewPage(pageID)`: empty header written over a zeroed image; dirty. -/
def NewPage (pageID : Int) : Page :=
  { pageID := pageID
    data := writeHeaderBytes (fun _ => 0)
      { PageID := pageID, SlotCount := 0, FreeStart := 18, FreeEnd := 4096
        NextPageID := -1, PrevPageID := -1 }
    dirty := true }

/-- `LoadPage(pageID, data)`: requires a 4096-byte image, starts clean. -/
def LoadPage (pageID : Int) (data : List Nat) : Option Page :=
  if data.length = PageSize then
    some { pageID := pageID, data := fun j => data.getD j 0, dirty := false }
  else none

/-- The slot scan of `InsertRecord`: first index (in the given order)
whose slot has `Size == 0`. -/
def scanSlots (d : Nat → Nat) : List Nat → Option Nat
  | [] => none
  | i :: rest =>
      if readU16 d (PageHeaderSize + i * SlotEntrySize + 2) = 0 then some i
      else scanSlots d rest

/-- `InsertRecord(record)`; returns the page after the call together with
the result, modelling in-place mutation of the receiver. -/
def Page.InsertRecord (p : Page) (record : List Nat) : Page × Except Err Nat :=
  let h := p.readHeader
  let recordSize : Int := record.length
  let freeSpace : Int := h.FreeEnd - h.FreeStart - SlotEntrySize
  if freeSpace < recordSize then (p, .error .pageFull)
  else
    let found := scanSlots p.data (List.range h.SlotCount.toNat)
    let slotID : Nat := found.getD h.SlotCount.toNat
    let h1 :=
      if found.isNone then
        { h with SlotCount := h.SlotCount + 1, FreeStart := h.FreeStart + SlotEntrySize }
      else h
    let recordOffset : Int := h.FreeEnd - recordSize
    let d1 := copyBytes p.data recordOffset record
    let d2 := writeSlotBytes d1 slotID recordOffset recordSize
    let d3 := writeHeaderBytes d2 { h1 with FreeEnd := recordOffset }
    ({ p with data := d3, dirty := true }, .ok slotID)

/-- `GetRecord(slotID)`: returns a copy of the record bytes. -/
def Page.GetRecord (p : Page) (slotID : Nat) : Except Err (List Nat) :=
  let h := p.readHeader
  if (slotID : Int) ≥ h.SlotCount then .error .noSuchSlot
  else
    let slot := p.readSlot slotID
    if slot.Size = 0 then .error .emptySlot
    else if slot.Offset < 0 ∨ slot.Size < 0 then .error .corruptSlot
    else if slot.Offset + slot.Size > (PageSize : Int) then .error .corruptSlot
    else .ok ((List.range slot.Size.toNat).map (fun k => p.data (slot.Offset.toNat + k) % 256))

/-- `UpdateRecord(slotID, newRecord)`: in-place overwrite of the record
region, requiring an exact size match. -/
def Page.UpdateRecord (p : Page) (slotID : Nat) (newRecord : List Nat) :
    Page × Except Err Unit :=
  let h := p.readHeader
  if (slotID : Int) ≥ h.SlotCount then (p, .error .noSuchSlot)
  else
    let slot := p.readSlot slotID
    if slot.Size = 0 then (p, .error .emptySlot)
    else if (newRecord.length : Int) ≠ slot.Size then (p, .error .sizeMismatch)
    else
      ({ p with data := copyBytes p.data slot.Offset newRecord, dirty := true }, .ok ())

/-- `DeleteRecord(slotID)`: tombstones the slot (offset and size zero). -/
def Page.DeleteRecord (p : Page) (slotID : Nat) : Page × Except Err Unit :=
  let h := p.readHeader
  if (slotID : Int) ≥ h.SlotCount then (p, .error .noSuchSlot)
  else
    let slot := p.readSlot slotID
    if slot.Size = 0 then (p, .error .alreadyEmpty)
    else
      ({ p with data := writeSlotBytes p.data slotID 0 0, dirty := true }, .ok ())

/-- `IsDirty`. -/
def Page.IsDirty (p : Page) : Bool := p.dirty

/-- `SetClean`. -/
def Page.SetClean (p : Page) : Page := { p with dirty := false }

/-- `GetData`: the full 4096-byte image as a list. -/
def Page.GetData (p : Page) : List Nat :=
  (List.range PageSize).map (fun j => p.data j % 256)

/-! ## Decidable equality for `Except` results -/

instance {ε α : Type} [DecidableEq ε] [DecidableEq α] : DecidableEq (Except ε α) := fun x y =>
  match x, y with
  | .ok a, .ok b =>
      if h : a = b then .isTrue (by rw [h]) else .isFalse (by intro hc; cases hc; exact h rfl)
  | .error e, .error f =>
      if h : e = f then .isTrue (by rw [h]) else .isFalse (by intro hc; cases hc; exact h rfl)
  | .ok _, .error _ => .isFalse (by intro hc; cases hc)
  | .error _, .ok _ => .isFalse (by intro hc; cases hc)

/-! ## Row codec (pkg/record, `serializer.go`) -/

/-- `ColumnType` is a Go string (`"INT"`, `"FLOAT"`, `"STRING"`). -/
def ColumnType := String
deriving DecidableEq

/-- `TypeInt`. -/
def TypeInt : ColumnType := "INT"

/-- `TypeFloat`. -/
def TypeFloat : ColumnType := "FLOAT"

/-- `TypeString`. -/
def TypeString : ColumnType := "STRING"

/-- `record.Column` (`Type` is a Lean keyword, hence the field name
`Ctype`). -/
structure Column where
  Name : String
  Ctype : ColumnType
  Length : Int
  Nullable : Bool

/-- `record.Schema`. -/
structure Schema where
  Columns : List Column

/-- A Go `interface{}` value as it reaches the codec: an `int` (64-bit,
modelled unbounded), a `float64` (modelled by its raw IEEE-754 bit
pattern, which is all the codec inspects), or a `string` (byte list).
A Go `nil` is modelled as `Option.none` around this type. -/
inductive GoValue where
  | vint (i : Int)
  | vfloat (bits : Nat)
  | vstr (s : List Nat)
  deriving DecidableEq, Repr

/-- Little-endian bytes of `uint16(n)` for a natural `n`. -/
def u16bytesLE (n : Nat) : List Nat :=
  [n % 256, n / 256 % 256]

/-- Little-endian bytes of `uint32(v)`. -/
def u32bytesLE (v : Int) : List Nat :=
  [u32byte v 0, u32byte v 1, u32byte v 2, u32byte v 3]

/-- Little-endian bytes of a raw 64-bit pattern. -/
def u64bytesLE (bits : Nat) : List Nat :=
  (List.range 8).map (fun k => bits / 256 ^ k % 256)

/-- `serializeField(col, value)`. -/
def serializeField (col : Column) (value : GoValue) : Except Err (List Nat) :=
  if col.Ctype = TypeInt then
    match value with
    | .vint n => .ok (u32bytesLE n)
    | _ => .error .typeMismatch
  else if col.Ctype = TypeFloat then
    match value with
    | .vfloat bits => .ok (u64bytesLE bits)
    | _ => .error .typeMismatch
  else if col.Ctype = TypeString then
    match value with
    | .vstr s =>
        if (s.length : Int) > col.Length then .error .stringTooLong
        else .ok (u16bytesLE s.length ++ s.map (· % 256))
    | _ => .error .typeMismatch
  else .error .unsupportedType

/-- The column loop of `Serialize`: threads the null bitmap (mutated in
place by `result[byteIdx] |= 1 << bitIdx`) and the appended field bytes;
`i` is the column index. -/
def serializeLoop : List (Column × Option GoValue) → Nat → List Nat → List Nat →
    Except Err (List Nat)
  | [], _, bitmap, fields => .ok (bitmap ++ fields)
  | (col, value) :: rest, i, bitmap, fields =>
      match value with
      | none =>
          if ¬col.Nullable then .error .nullNotAllowed
          else
            serializeLoop rest (i + 1)
              (bitmap.set (i / 8) (bitmap.getD (i / 8) 0 ||| (1 <<< (i % 8)))) fields
      | some v =>
          match serializeField col v with
          | .error e => .error e
          | .ok fieldData => serializeLoop rest (i + 1) bitmap (fields ++ fieldData)

/-- `Serialize(schema, values)`. -/
def Serialize (schema : Schema) (values : List (Option GoValue)) :
    Except Err (List Nat) :=
  if values.length ≠ schema.Columns.length then .error .valueCountMismatch
  else
    serializeLoop (schema.Columns.zip values) 0
      (List.replicate ((schema.Columns.length + 7) / 8) 0) []

/-- `deserializeField(col, data)`: value and number of bytes consumed.
The INT case converts `uint32 → int` with no sign extension, exactly as
`int(binary.LittleEndian.Uint32(data[0:4]))` does on a 64-bit platform. -/
def deserializeField (col : Column) (data : List Nat) :
    Except Err (GoValue × Nat) :=
  if col.Ctype = TypeInt then
    if data.length < 4 then .error .truncated
    else .ok (.vint (readU16 (fun j => data.getD j 0) 0
      + 65536 * readU16 (fun j => data.getD j 0) 2), 4)
  else if col.Ctype = TypeFloat then
    if data.length < 8 then .error .truncated
    else .ok (.vfloat ((List.range 8).foldr
      (fun k acc => data.getD k 0 % 256 + 256 * acc) 0), 8)
  else if col.Ctype = TypeString then
    if data.length < 2 then .error .truncated
    else
      let length := readU16 (fun j => data.getD j 0) 0
      if data.length < 2 + length then .error .truncated
      else .ok (.vstr (((data.drop 2).take length).map (· % 256)), 2 + length)
  else .error .unsupportedType

/-- The column loop of `Deserialize`: `i` is the column index, `offset`
the read position. -/
def deserializeLoop (data : List Nat) : List Column → Nat → Nat →
    Except Err (List (Option GoValue))
  | [], _, _ => .ok []
  | col :: rest, i, offset =>
      if data.getD (i / 8) 0 % 256 &&& (1 <<< (i % 8)) ≠ 0 then
        match deserializeLoop data rest (i + 1) offset with
        | .error e => .error e
        | .ok vs => .ok (none :: vs)
      else
        match deserializeField col (data.drop offset) with
        | .error e => .error e
        | .ok (v, bytesRead) =>
            match deserializeLoop data rest (i + 1) (offset + bytesRead) with
            | .error e => .error e
            | .ok vs => .ok (some v :: vs)

/-- `Deserialize(schema, data)`. -/
def Deserialize (schema : Schema) (data : List Nat) :
    Except Err (List (Option GoValue)) :=
  if data.length = 0 then .error .emptyData
  else if data.length < (schema.Columns.length + 7) / 8 then .error .insufficientBitmap
  else deserializeLoop data schema.Columns 0 ((schema.Columns.length + 7) / 8)

/-! ## Logical-ID index (pkg/bptree, `simple_index.go`)

`tableName` / `basePath` only feed the file path of `Load`/`Save`, which
are not modelled (no claim is about index persistence); the in-memory map
and `nextID` are modelled exactly. -/

/-- `bptree.RecordID`. `SlotID` is a Go `int`; every value the layer ever
stores is a slot index returned by `InsertRecord`, hence a natural. -/
structure RecordID where
  PageID : Int
  SlotID : Nat
  deriving DecidableEq, Repr

/-- `bptree.SimpleIndex`: the map `id → RecordID` and the next id. -/
structure SimpleIndex where
  index : Int → Option RecordID
  nextID : Int

/-- `NewSimpleIndex`: empty map, `nextID = 1`. -/
def NewSimpleIndex : SimpleIndex :=
  { index := fun _ => none, nextID := 1 }

/-- `SimpleIndex.Insert(rid)`: issues `nextID`, stores the mapping,
increments `nextID`; never fails. -/
def SimpleIndex.Insert (si : SimpleIndex) (rid : RecordID) : SimpleIndex × Int :=
  ({ index := fun k => if k = si.nextID then some rid else si.index k
     nextID := si.nextID + 1 }, si.nextID)

/-- `SimpleIndex.Search(id)`: the map lookup (`rid, exists`). -/
def SimpleIndex.Search (si : SimpleIndex) (id : Int) : Option RecordID :=
  si.index id

/-- `SimpleIndex.Delete(id)`. -/
def SimpleIndex.Delete (si : SimpleIndex) (id : Int) : SimpleIndex × Except Err Unit :=
  match si.index id with
  | none => (si, .error .notFound)
  | some _ =>
      ({ si with index := fun k => if k = id then none else si.index k }, .ok ())

/-- `SimpleIndex.Update(id, rid)`. -/
def SimpleIndex.Update (si : SimpleIndex) (id : Int) (rid : RecordID) :
    SimpleIndex × Except Err Unit :=
  match si.index id with
  | none => (si, .error .notFound)
  | some _ =>
      ({ si with index := fun k => if k = id then some rid else si.index k }, .ok ())

/-! ## Disk manager (pkg/disk, `disk_manager.go`)

The base directory is fixed, so the heap-file system is modelled as a map
from table name to optional file contents (`<table>.tbl`). Opening a file
(`os.OpenFile` with `O_CREATE`) is modelled as always succeeding. -/

/-- The heap files on disk, keyed by table name. -/
def FileSys := String → Option (List Nat)

/-- `disk.DiskManager`: open handles and the per-table page counter
(`map[string]int32`; a missing key reads as 0). -/
structure DM where
  handles : String → Bool
  pageCounter : String → Option Int

/-- `NewDiskManager`. -/
def NewDiskManager : DM :=
  { handles := fun _ => false, pageCounter := fun _ => none }

/-- `int32(n)` for a non-negative `n` (the `int32(stat.Size()/PageSize)`
cast). -/
def toInt32 (n : Int) : Int :=
  (n + 2147483648) % 4294967296 - 2147483648

/-- `getFile(tableName)`: on a fresh handle, opens (creating an empty
file if absent) and initializes the page counter from
`fileSize / PageSize` if — and only if — the counter is absent. -/
def DM.getFile (dm : DM) (fs : FileSys) (t : String) : DM × FileSys :=
  if dm.handles t then (dm, fs)
  else
    let content := (fs t).getD []
    let fs1 : FileSys := fun s => if s = t then some content else fs s
    let dm1 : DM :=
      { handles := fun s => if s = t then true else dm.handles s
        pageCounter :=
          if (dm.pageCounter t).isSome then dm.pageCounter
          else fun s =>
            if s = t then some (toInt32 ((content.length : Int) / (PageSize : Int)))
            else dm.pageCounter s }
    (dm1, fs1)

/-- `ReadPage(tableName, pageID)`: positional read of one page at
`pageID * PageSize`; fails when the file does not cover the region. -/
def DM.ReadPage (dm : DM) (fs : FileSys) (t : String) (pageID : Int) :
    DM × FileSys × Except Err (List Nat) :=
  let gf := dm.getFile fs t
  let content := (gf.2 t).getD []
  let offset : Int := pageID * (PageSize : Int)
  if 0 ≤ offset ∧ offset + (PageSize : Int) ≤ (content.length : Int) then
    (gf.1, gf.2, .ok ((List.range PageSize).map (fun k => content.getD (offset.toNat + k) 0)))
  else (gf.1, gf.2, .error .eof)

/-- `AllocatePage(tableName)`: returns the current counter and
increments it. -/
def DM.AllocatePage (dm : DM) (fs : FileSys) (t : String) :
    DM × FileSys × Int :=
  let gf := dm.getFile fs t
  let pageID := (gf.1.pageCounter t).getD 0
  ({ gf.1 with pageCounter := fun s =>
      if s = t then some (toInt32 (pageID + 1)) else gf.1.pageCounter s }, gf.2, pageID)

/-- `GetPageCount(tableName)`: the bare map read — a missing counter
reads as 0; nothing is initialized here. -/
def DM.GetPageCount (dm : DM) (t : String) : Int :=
  (dm.pageCounter t).getD 0

/-! ## Storage layer (pkg/layer, `storage_layer.go`) -/

/-- The outcome of a storage-layer call: a value, a returned `error`, or
a Go runtime panic (nil-pointer dereference on a missing index). -/
inductive RunRes (α : Type) where
  | ok (a : α)
  | err (e : Err)
  | nilPanic
  deriving DecidableEq, Repr

/-- `layer.FileStorageLayer`. The catalog manager is held by its schema
map (`CatalogManager.schemas`); the page cache is
`map[string]map[int32]*Page` where a missing outer entry is Go's nil
map. -/
structure FSL where
  isOpen : Bool
  catalog : String → Option Schema
  pageCache : String → Option (Int → Option Page)
  indexes : String → Option SimpleIndex
  dm : DM
  fs : FileSys

/-- `CatalogManager.TableExists`. -/
def FSL.TableExists (st : FSL) (t : String) : Bool :=
  (st.catalog t).isSome

/-- Read a cache entry (missing outer map reads as empty, like a Go nil
map). -/
def FSL.cacheGet (st : FSL) (t : String) (pid : Int) : Option Page :=
  match st.pageCache t with
  | none => none
  | some m => m pid

/-- Store a page pointer into the cache, creating the inner map when it
is nil (`fsl.pageCache[tableName] == nil` guard in the source). -/
def FSL.cacheSet (st : FSL) (t : String) (pid : Int) (p : Page) : FSL :=
  let inner := (st.pageCache t).getD (fun _ => none)
  { st with pageCache := fun s =>
      if s = t then some (fun k => if k = pid then some p else inner k)
      else st.pageCache s }

/-- `getPage(tableName, pageID)`: cache hit, else read the page image
from disk, load it, and populate the cache. -/
def FSL.getPage (st : FSL) (t : String) (pid : Int) : FSL × Except Err Page :=
  match st.cacheGet t pid with
  | some p => (st, .ok p)
  | none =>
      let rp := st.dm.ReadPage st.fs t pid
      let st1 := { st with dm := rp.1, fs := rp.2.1 }
      match rp.2.2 with
      | .error e => (st1, .error e)
      | .ok data =>
          match LoadPage pid data with
          | none => (st1, .error .loadFailed)
          | some pg => (st1.cacheSet t pid pg, .ok pg)

/-- The page-scan loop of `insertRecord`: try `InsertRecord` on each
existing page id in ascending order, threading cache/disk state; a
`getPage` error skips the page, an `InsertRecord` error (PageFull) moves
on. The mutated page is written back to the cache entry it came from
(in Go the cache holds the mutated pointer). -/
def FSL.tryPages (st : FSL) (t : String) (recordData : List Nat) :
    List Nat → FSL × Option (Int × Nat)
  | [] => (st, none)
  | i :: rest =>
      match (st.getPage t (i : Int)).2 with
      | .error _ => (st.getPage t (i : Int)).1.tryPages t recordData rest
      | .ok p =>
          let pr := p.InsertRecord recordData
          let st2 := (st.getPage t (i : Int)).1.cacheSet t (i : Int) pr.1
          match pr.2 with
          | .ok slotID => (st2, some ((i : Int), slotID))
          | .error _ => st2.tryPages t recordData rest

/-- Tail of `insertRecord`'s fresh-page path: given the result of
`InsertRecord` on the newly allocated page, either propagate its error
or cache the mutated page and return `(newPageID, slotID)`. -/
def FSL.insertRecordFinish (st2 : FSL) (t : String) (newPageID : Int) :
    Page × Except Err Nat → FSL × Except Err (Int × Nat)
  | (_, .error e) => (st2, .error e)
  | (p, .ok slotID) => (st2.cacheSet t newPageID p, .ok (newPageID, slotID))

/-- Tail of `insertRecord` after the first-fit scan: a hit is returned
as-is; on a miss a fresh page is allocated and the record inserted
there. -/
def FSL.insertRecordAfter (st1 : FSL) (t : String) (recordData : List Nat) :
    Option (Int × Nat) → FSL × Except Err (Int × Nat)
  | some ps => (st1, .ok ps)
  | none =>
      let ap := st1.dm.AllocatePage st1.fs t
      FSL.insertRecordFinish { st1 with dm := ap.1, fs := ap.2.1 } t ap.2.2
        ((NewPage ap.2.2).InsertRecord recordData)

/-- `insertRecord(tableName, recordData)`: first-fit over the existing
pages `[0, GetPageCount)`, else allocate a fresh page, insert there and
cache it. -/
def FSL.insertRecord (st : FSL) (t : String) (recordData : List Nat) :
    FSL × Except Err (Int × Nat) :=
  let pageCount := st.dm.GetPageCount t
  let tp := st.tryPages t recordData (List.range pageCount.toNat)
  tp.1.insertRecordAfter t recordData tp.2

/-- `Insert(tableName, recordData)`. A missing index after a successful
physical insert would be a nil-pointer panic in Go. -/
def FSL.Insert (st : FSL) (t : String) (recordData : List Nat) :
    FSL × RunRes Int :=
  if ¬st.isOpen then (st, .err .notOpen)
  else if ¬st.TableExists t then (st, .err .unknownTable)
  else
    let ir := st.insertRecord t recordData
    match ir.2 with
    | .error e => (ir.1, .err e)
    | .ok ps =>
        match ir.1.indexes t with
        | none => (ir.1, .nilPanic)
        | some idx =>
            let ii := idx.Insert { PageID := ps.1, SlotID := ps.2 }
            ({ ir.1 with indexes := fun s => if s = t then some ii.1 else ir.1.indexes s },
             .ok ii.2)

/-- `Get(tableName, recordID)`: index lookup → page cache → `GetRecord`.
The index is read without a table-existence check: a missing table is a
nil-pointer panic. -/
def FSL.Get (st : FSL) (t : String) (recordID : Int) :
    FSL × RunRes (List Nat) :=
  if ¬st.isOpen then (st, .err .notOpen)
  else
    match st.indexes t with
    | none => (st, .nilPanic)
    | some idx =>
        match idx.Search recordID with
        | none => (st, .err .notFound)
        | some rid =>
            match (st.getPage t rid.PageID).2 with
            | .error e => ((st.getPage t rid.PageID).1, .err e)
            | .ok p =>
                match p.GetRecord rid.SlotID with
                | .error e => ((st.getPage t rid.PageID).1, .err e)
                | .ok bytes => ((st.getPage t rid.PageID).1, .ok bytes)

/-- `Update(tableName, recordID, updatedRecord)`; like `Get`, no
table-existence check. -/
def FSL.Update (st : FSL) (t : String) (recordID : Int) (updatedRecord : List Nat) :
    FSL × RunRes Unit :=
  if ¬st.isOpen then (st, .err .notOpen)
  else
    match st.indexes t with
    | none => (st, .nilPanic)
    | some idx =>
        match idx.Search recordID with
        | none => (st, .err .notFound)
        | some rid =>
            match (st.getPage t rid.PageID).2 with
            | .error e => ((st.getPage t rid.PageID).1, .err e)
            | .ok p =>
                let ur := p.UpdateRecord rid.SlotID updatedRecord
                let st2 := (st.getPage t rid.PageID).1.cacheSet t rid.PageID ur.1
                match ur.2 with
                | .error e => (st2, .err e)
                | .ok _ => (st2, .ok ())

/-- `DeleteRecord(tableName, recordID)`: tombstone the slot, then remove
the id from the index; like `Get`, no table-existence check. -/
def FSL.DeleteRecord (st : FSL) (t : String) (recordID : Int) :
    FSL × RunRes Unit :=
  if ¬st.isOpen then (st, .err .notOpen)
  else
    match st.indexes t with
    | none => (st, .nilPanic)
    | some idx =>
        match idx.Search recordID with
        | none => (st, .err .notFound)
        | some rid =>
            match (st.getPage t rid.PageID).2 with
            | .error e => ((st.getPage t rid.PageID).1, .err e)
            | .ok p =>
                let dr := p.DeleteRecord rid.SlotID
                let st2 := (st.getPage t rid.PageID).1.cacheSet t rid.PageID dr.1
                match dr.2 with
                | .error e => (st2, .err e)
                | .ok _ =>
                    match st2.indexes t with
                    | none => (st2, .nilPanic)
                    | some idx2 =>
                        let de := idx2.Delete recordID
                        let newIdxMap : String → Option SimpleIndex := fun s =>
                          if s = t then some de.1 else st2.indexes s
                        let st3 := { st2 with indexes := newIdxMap }
                        match de.2 with
                        | .error e => (st3, .err e)
                        | .ok _ => (st3, .ok ())

/-! ## Byte-level lemmas for the page image -/

theorem u16byte_read (v : Int) :
    u16byte v 0 % 256 + 256 * (u16byte v 1 % 256) = (v % 65536).toNat := by
  unfold u16byte
  have h0 : 0 ≤ v % 65536 := Int.emod_nonneg v (by norm_num)
  have h1 : v % 65536 < 65536 := Int.emod_lt_of_pos v (by norm_num)
  have hm : (v % 65536).toNat < 65536 := by omega
  simp only [pow_zero, pow_one, Nat.div_one]
  omega

theorem goInt16_emod_small (v : Int) (h0 : 0 ≤ v) (h1 : v < 32768) :
    goInt16 ((v % 65536).toNat) = v := by
  unfold goInt16
  have hv : v % 65536 = v := Int.emod_eq_of_lt h0 (by omega)
  split <;> omega

theorem writeHeaderBytes_apply_ge (d : Nat → Nat) (h : PageHeader) (j : Nat)
    (hj : 18 ≤ j) : writeHeaderBytes d h j = d j := by
  unfold writeHeaderBytes
  repeat rw [if_neg (by omega)]

theorem readU16_writeHeaderBytes_slotCount (d : Nat → Nat) (h : PageHeader) :
    readU16 (writeHeaderBytes d h) 4 = (h.SlotCount % 65536).toNat := by
  show writeHeaderBytes d h 4 % 256 + 256 * (writeHeaderBytes d h 5 % 256) = _
  unfold writeHeaderBytes
  rw [if_neg (by omega), if_pos (by omega), if_neg (by omega), if_pos (by omega)]
  exact u16byte_read h.SlotCount

theorem readU16_writeHeaderBytes_freeStart (d : Nat → Nat) (h : PageHeader) :
    readU16 (writeHeaderBytes d h) 6 = (h.FreeStart % 65536).toNat := by
  show writeHeaderBytes d h 6 % 256 + 256 * (writeHeaderBytes d h 7 % 256) = _
  unfold writeHeaderBytes
  rw [if_neg (by omega), if_neg (by omega), if_pos (by omega),
    if_neg (by omega), if_neg (by omega), if_pos (by omega)]
  exact u16byte_read h.FreeStart

theorem readU16_writeHeaderBytes_freeEnd (d : Nat → Nat) (h : PageHeader) :
    readU16 (writeHeaderBytes d h) 8 = (h.FreeEnd % 65536).toNat := by
  show writeHeaderBytes d h 8 % 256 + 256 * (writeHeaderBytes d h 9 % 256) = _
  unfold writeHeaderBytes
  rw [if_neg (by omega), if_neg (by omega), if_neg (by omega), if_pos (by omega),
    if_neg (by omega), if_neg (by omega), if_neg (by omega), if_pos (by omega)]
  exact u16byte_read h.FreeEnd

theorem readU16_writeHeaderBytes_ge (d : Nat → Nat) (h : PageHeader) (j : Nat)
    (hj : 18 ≤ j) : readU16 (writeHeaderBytes d h) j = readU16 d j := by
  unfold readU16
  rw [writeHeaderBytes_apply_ge d h j hj, writeHeaderBytes_apply_ge d h (j + 1) (by omega)]

theorem writeSlotBytes_apply_ne (d : Nat → Nat) (s : Nat) (off sz : Int) (j : Nat)
    (hj : j < PageHeaderSize + s * SlotEntrySize ∨ PageHeaderSize + s * SlotEntrySize + 4 ≤ j) :
    writeSlotBytes d s off sz j = d j := by
  unfold writeSlotBytes
  unfold PageHeaderSize SlotEntrySize at hj ⊢
  repeat rw [if_neg (by omega)]

theorem readU16_writeSlotBytes_off (d : Nat → Nat) (s : Nat) (off sz : Int) :
    readU16 (writeSlotBytes d s off sz) (PageHeaderSize + s * SlotEntrySize)
      = (off % 65536).toNat := by
  show writeSlotBytes d s off sz (PageHeaderSize + s * SlotEntrySize) % 256
      + 256 * (writeSlotBytes d s off sz (PageHeaderSize + s * SlotEntrySize + 1) % 256) = _
  unfold writeSlotBytes PageHeaderSize SlotEntrySize
  rw [if_pos (by omega)]
  rw [if_neg (by omega), if_pos (by omega)]
  exact u16byte_read off

theorem readU16_writeSlotBytes_size (d : Nat → Nat) (s : Nat) (off sz : Int) :
    readU16 (writeSlotBytes d s off sz) (PageHeaderSize + s * SlotEntrySize + 2)
      = (sz % 65536).toNat := by
  show writeSlotBytes d s off sz (PageHeaderSize + s * SlotEntrySize + 2) % 256
      + 256 * (writeSlotBytes d s off sz (PageHeaderSize + s * SlotEntrySize + 2 + 1) % 256) = _
  unfold writeSlotBytes PageHeaderSize SlotEntrySize
  rw [if_neg (by omega), if_neg (by omega), if_pos (by omega)]
  rw [if_neg (by omega), if_neg (by omega), if_neg (by omega), if_pos (by omega)]
  exact u16byte_read sz

theorem readU16_writeSlotBytes_out (d : Nat → Nat) (s : Nat) (off sz : Int) (j : Nat)
    (hj : j + 2 ≤ PageHeaderSize + s * SlotEntrySize ∨ PageHeaderSize + s * SlotEntrySize + 4 ≤ j) :
    readU16 (writeSlotBytes d s off sz) j = readU16 d j := by
  unfold readU16
  unfold PageHeaderSize SlotEntrySize at hj
  rw [writeSlotBytes_apply_ne d s off sz j (by unfold PageHeaderSize SlotEntrySize; omega),
    writeSlotBytes_apply_ne d s off sz (j + 1) (by unfold PageHeaderSize SlotEntrySize; omega)]

theorem copyBytes_apply_out (d : Nat → Nat) (off : Int) (b : List Nat) (j : Nat)
    (hj : (j : Int) < off ∨ off + b.length ≤ (j : Int)) : copyBytes d off b j = d j := by
  unfold copyBytes
  rw [if_neg (by omega)]

theorem copyBytes_apply_in (d : Nat → Nat) (off : Int) (b : List Nat) (k : Nat)
    (hk : k < b.length) (hoff : 0 ≤ off) :
    copyBytes d off b (off.toNat + k) = b.getD k 0 % 256 := by
  unfold copyBytes
  rw [if_pos (by constructor <;> omega)]
  congr 2
  omega

theorem readU16_copyBytes_out (d : Nat → Nat) (off : Int) (b : List Nat) (j : Nat)
    (hj : (j : Int) + 2 ≤ off ∨ off + b.length ≤ (j : Int)) :
    readU16 (copyBytes d off b) j = readU16 d j := by
  unfold readU16
  rw [copyBytes_apply_out d off b j (by omega),
    copyBytes_apply_out d off b (j + 1) (by push_cast; omega)]

theorem readU32_copyBytes_out (d : Nat → Nat) (off : Int) (b : List Nat) (j : Nat)
    (hj : (j : Int) + 4 ≤ off ∨ off + b.length ≤ (j : Int)) :
    readU32 (copyBytes d off b) j = readU32 d j := by
  unfold readU32
  rw [copyBytes_apply_out d off b j (by omega),
    copyBytes_apply_out d off b (j + 1) (by push_cast; omega),
    copyBytes_apply_out d off b (j + 2) (by push_cast; omega),
    copyBytes_apply_out d off b (j + 3) (by push_cast; omega)]

theorem readU32_writeSlotBytes_out (d : Nat → Nat) (s : Nat) (off sz : Int) (j : Nat)
    (hj : j + 4 ≤ PageHeaderSize + s * SlotEntrySize ∨ PageHeaderSize + s * SlotEntrySize + 4 ≤ j) :
    readU32 (writeSlotBytes d s off sz) j = readU32 d j := by
  unfold readU32
  unfold PageHeaderSize SlotEntrySize at hj
  rw [writeSlotBytes_apply_ne d s off sz j (by unfold PageHeaderSize SlotEntrySize; omega),
    writeSlotBytes_apply_ne d s off sz (j + 1) (by unfold PageHeaderSize SlotEntrySize; omega),
    writeSlotBytes_apply_ne d s off sz (j + 2) (by unfold PageHeaderSize SlotEntrySize; omega),
    writeSlotBytes_apply_ne d s off sz (j + 3) (by unfold PageHeaderSize SlotEntrySize; omega)]


/-! ## Properties of the slot scan -/

theorem scanSlots_append (d : Nat → Nat) (l1 l2 : List Nat) :
    scanSlots d (l1 ++ l2) = (scanSlots d l1).or (scanSlots d l2) := by
  induction l1 with
  | nil => simp [scanSlots]
  | cons i rest ih =>
      simp only [List.cons_append, scanSlots]
      split
      · rfl
      · exact ih

theorem scanSlots_range_none (d : Nat → Nat) (n : Nat)
    (h : scanSlots d (List.range n) = none) :
    ∀ j < n, readU16 d (PageHeaderSize + j * SlotEntrySize + 2) ≠ 0 := by
  induction n with
  | zero => intro j hj; omega
  | succ n ih =>
      rw [List.range_succ, scanSlots_append] at h
      cases hl : scanSlots d (List.range n) with
      | some i => rw [hl] at h; simp [Option.or] at h
      | none =>
          rw [hl] at h
          simp only [Option.or] at h
          intro j hj
          rcases Nat.lt_succ_iff_lt_or_eq.mp hj with hj | rfl
          · exact ih hl j hj
          · intro hz
            simp [scanSlots, hz] at h

theorem scanSlots_range_some (d : Nat → Nat) (n i : Nat)
    (h : scanSlots d (List.range n) = some i) :
    i < n ∧ readU16 d (PageHeaderSize + i * SlotEntrySize + 2) = 0 ∧
      ∀ j < i, readU16 d (PageHeaderSize + j * SlotEntrySize + 2) ≠ 0 := by
  induction n with
  | zero => simp [scanSlots, List.range_zero] at h
  | succ n ih =>
      rw [List.range_succ, scanSlots_append] at h
      cases hl : scanSlots d (List.range n) with
      | some i0 =>
          rw [hl] at h
          simp only [Option.or] at h
          cases h
          obtain ⟨h1, h2, h3⟩ := ih hl
          exact ⟨by omega, h2, h3⟩
      | none =>
          rw [hl] at h
          simp only [Option.or] at h
          have hnone := scanSlots_range_none d n hl
          unfold scanSlots at h
          split at h
          · cases h
            exact ⟨by omega, by assumption, fun j hj => hnone j hj⟩
          · simp [scanSlots] at h

/-! ## The shape of a successful `InsertRecord` -/

/-- The result of the slot scan inside `InsertRecord`. -/
def insFound (p : Page) : Option Nat :=
  scanSlots p.data (List.range p.readHeader.SlotCount.toNat)

/-- The slot index a successful `InsertRecord` writes to. -/
def insSlotID (p : Page) : Nat :=
  (insFound p).getD p.readHeader.SlotCount.toNat

/-- The header after the (possible) slot-count/free-start bump. -/
def insHeader1 (p : Page) : PageHeader :=
  if (insFound p).isNone then
    { p.readHeader with SlotCount := p.readHeader.SlotCount + 1, FreeStart := p.readHeader.FreeStart + SlotEntrySize }
  else p.readHeader

theorem insertRecord_ok_res (p : Page) (b : List Nat)
    (hfit : ¬(p.readHeader.FreeEnd - p.readHeader.FreeStart - (SlotEntrySize : Int) < (b.length : Int))) :
    (p.InsertRecord b).2 = .ok (insSlotID p) := by
  unfold Page.InsertRecord
  rw [if_neg hfit]
  unfold insSlotID insFound
  rfl

theorem insertRecord_ok_data (p : Page) (b : List Nat)
    (hfit : ¬(p.readHeader.FreeEnd - p.readHeader.FreeStart - (SlotEntrySize : Int) < (b.length : Int))) :
    (p.InsertRecord b).1.data = writeHeaderBytes
      (writeSlotBytes (copyBytes p.data (p.readHeader.FreeEnd - b.length) b)
        (insSlotID p) (p.readHeader.FreeEnd - b.length) b.length)
      { insHeader1 p with FreeEnd := p.readHeader.FreeEnd - b.length } := by
  unfold Page.InsertRecord
  rw [if_neg hfit]
  unfold insSlotID insHeader1 insFound
  rfl

theorem insertRecord_err (p : Page) (b : List Nat)
    (hfull : p.readHeader.FreeEnd - p.readHeader.FreeStart - (SlotEntrySize : Int) < (b.length : Int)) :
    p.InsertRecord b = (p, .error .pageFull) := by
  unfold Page.InsertRecord
  rw [if_pos hfull]

/-! ## The page invariant -/

/-- The spec's page invariant (§3, §8), plus the bookkeeping facts
(`SlotCount ≥ 0`, `FreeEnd ≤ PageSize`, positive sizes) needed to keep it
inductive: `FreeStart = 18 + 4*SlotCount`, `FreeStart ≤ FreeEnd ≤ 4096`,
every non-empty slot's region lies in `[FreeEnd, PageSize)`, and regions
of distinct non-empty slots are disjoint. -/
def PageInv (p : Page) : Prop :=
  0 ≤ p.readHeader.SlotCount ∧
  p.readHeader.FreeStart = 18 + 4 * p.readHeader.SlotCount ∧
  p.readHeader.FreeStart ≤ p.readHeader.FreeEnd ∧
  p.readHeader.FreeEnd ≤ 4096 ∧
  (∀ i : Nat, i < p.readHeader.SlotCount.toNat → (p.readSlot i).Size ≠ 0 →
    p.readHeader.FreeEnd ≤ (p.readSlot i).Offset ∧ 0 < (p.readSlot i).Size ∧
    (p.readSlot i).Offset + (p.readSlot i).Size ≤ 4096) ∧
  (∀ i j : Nat, i < p.readHeader.SlotCount.toNat → j < p.readHeader.SlotCount.toNat →
    i ≠ j → (p.readSlot i).Size ≠ 0 → (p.readSlot j).Size ≠ 0 →
    (p.readSlot i).Offset + (p.readSlot i).Size ≤ (p.readSlot j).Offset ∨
    (p.readSlot j).Offset + (p.readSlot j).Size ≤ (p.readSlot i).Offset)

theorem newPage_slotCount (pid : Int) : (NewPage pid).readHeader.SlotCount = 0 := by
  show goInt16 (readU16 (writeHeaderBytes (fun _ => 0) _) 4) = 0
  rw [readU16_writeHeaderBytes_slotCount]
  show goInt16 (((0 : Int) % 65536).toNat) = 0
  decide

theorem newPage_freeStart (pid : Int) : (NewPage pid).readHeader.FreeStart = 18 := by
  show goInt16 (readU16 (writeHeaderBytes (fun _ => 0) _) 6) = 18
  rw [readU16_writeHeaderBytes_freeStart]
  show goInt16 (((18 : Int) % 65536).toNat) = 18
  decide

theorem newPage_freeEnd (pid : Int) : (NewPage pid).readHeader.FreeEnd = 4096 := by
  show goInt16 (readU16 (writeHeaderBytes (fun _ => 0) _) 8) = 4096
  rw [readU16_writeHeaderBytes_freeEnd]
  show goInt16 (((4096 : Int) % 65536).toNat) = 4096
  decide

theorem pageInv_newPage (pid : Int) : PageInv (NewPage pid) := by
  refine ⟨?_, ?_, ?_, ?_, ?_, ?_⟩
  · rw [newPage_slotCount]
  · rw [newPage_slotCount, newPage_freeStart]; norm_num
  · rw [newPage_freeStart, newPage_freeEnd]; norm_num
  · rw [newPage_freeEnd]
  · intro i hi
    rw [newPage_slotCount] at hi
    simp at hi
  · intro i j hi
    rw [newPage_slotCount] at hi
    simp at hi

/-! ## Reading back the page written by a successful insert -/

theorem insSlotID_some (p : Page) (i : Nat) (hf : insFound p = some i) :
    insSlotID p = i := by
  unfold insSlotID
  rw [hf]
  rfl

theorem insSlotID_none (p : Page) (hf : insFound p = none) :
    insSlotID p = p.readHeader.SlotCount.toNat := by
  unfold insSlotID
  rw [hf]
  rfl

theorem insHeader1_some (p : Page) (i : Nat) (hf : insFound p = some i) :
    insHeader1 p = p.readHeader := by
  unfold insHeader1
  rw [hf]
  rfl

theorem insHeader1_none (p : Page) (hf : insFound p = none) :
    (insHeader1 p).SlotCount = p.readHeader.SlotCount + 1 ∧
      (insHeader1 p).FreeStart = p.readHeader.FreeStart + 4 := by
  unfold insHeader1
  rw [hf]
  exact ⟨rfl, rfl⟩

theorem insHeader1_slotCount_bounds (p : Page) (hInv : PageInv p) :
    0 ≤ (insHeader1 p).SlotCount ∧ (insHeader1 p).SlotCount ≤ 1020 ∧
      (insHeader1 p).FreeStart = 18 + 4 * (insHeader1 p).SlotCount := by
  obtain ⟨h0, h1, h2, h3, _, _⟩ := hInv
  cases hf : insFound p with
  | some i =>
      rw [insHeader1_some p i hf]
      omega
  | none =>
      obtain ⟨hsc, hfs⟩ := insHeader1_none p hf
      rw [hsc, hfs, h1]
      omega

theorem insSlotID_block (p : Page) (hInv : PageInv p) :
    18 + 4 * ((insSlotID p : Int)) + 4 ≤ p.readHeader.FreeStart + 4 ∧
      (insSlotID p : Int) < (insHeader1 p).SlotCount := by
  obtain ⟨h0, h1, h2, h3, _, _⟩ := hInv
  cases hf : insFound p with
  | some i =>
      have hi := (scanSlots_range_some _ _ _ hf).1
      rw [insSlotID_some p i hf, insHeader1_some p i hf]
      omega
  | none =>
      rw [insSlotID_none p hf]
      obtain ⟨hsc, hfs⟩ := insHeader1_none p hf
      rw [hsc]
      omega

theorem insert_bounds (p : Page) (b : List Nat) (hInv : PageInv p)
    (hfit : ¬(p.readHeader.FreeEnd - p.readHeader.FreeStart - (SlotEntrySize : Int) < (b.length : Int))) :
    (b.length : Int) ≤ 4074 ∧
      p.readHeader.FreeStart + 4 ≤ p.readHeader.FreeEnd - (b.length : Int) ∧
      22 ≤ p.readHeader.FreeEnd - (b.length : Int) ∧
      p.readHeader.FreeEnd - (b.length : Int) ≤ 4096 := by
  obtain ⟨h0, h1, h2, h3, _, _⟩ := hInv
  unfold SlotEntrySize at hfit
  omega

theorem insert_freeEnd (p : Page) (b : List Nat) (hInv : PageInv p)
    (hfit : ¬(p.readHeader.FreeEnd - p.readHeader.FreeStart - (SlotEntrySize : Int) < (b.length : Int))) :
    (p.InsertRecord b).1.readHeader.FreeEnd = p.readHeader.FreeEnd - b.length := by
  have hb := insert_bounds p b hInv hfit
  show goInt16 (readU16 (p.InsertRecord b).1.data 8) = _
  rw [insertRecord_ok_data p b hfit, readU16_writeHeaderBytes_freeEnd]
  show goInt16 (((p.readHeader.FreeEnd - (b.length : Int)) % 65536).toNat) = _
  exact goInt16_emod_small _ (by omega) (by omega)

theorem insert_slotCount (p : Page) (b : List Nat) (hInv : PageInv p)
    (hfit : ¬(p.readHeader.FreeEnd - p.readHeader.FreeStart - (SlotEntrySize : Int) < (b.length : Int))) :
    (p.InsertRecord b).1.readHeader.SlotCount = (insHeader1 p).SlotCount := by
  have hbd := insHeader1_slotCount_bounds p hInv
  show goInt16 (readU16 (p.InsertRecord b).1.data 4) = _
  rw [insertRecord_ok_data p b hfit, readU16_writeHeaderBytes_slotCount]
  show goInt16 (((insHeader1 p).SlotCount % 65536).toNat) = _
  exact goInt16_emod_small _ (by omega) (by omega)

theorem insert_freeStart (p : Page) (b : List Nat) (hInv : PageInv p)
    (hfit : ¬(p.readHeader.FreeEnd - p.readHeader.FreeStart - (SlotEntrySize : Int) < (b.length : Int))) :
    (p.InsertRecord b).1.readHeader.FreeStart = (insHeader1 p).FreeStart := by
  have hbd := insHeader1_slotCount_bounds p hInv
  show goInt16 (readU16 (p.InsertRecord b).1.data 6) = _
  rw [insertRecord_ok_data p b hfit, readU16_writeHeaderBytes_freeStart]
  show goInt16 (((insHeader1 p).FreeStart % 65536).toNat) = _
  exact goInt16_emod_small _ (by omega) (by omega)

theorem insert_readSlot_self (p : Page) (b : List Nat) (hInv : PageInv p)
    (hfit : ¬(p.readHeader.FreeEnd - p.readHeader.FreeStart - (SlotEntrySize : Int) < (b.length : Int))) :
    ((p.InsertRecord b).1.readSlot (insSlotID p)).Offset = p.readHeader.FreeEnd - b.length ∧
      ((p.InsertRecord b).1.readSlot (insSlotID p)).Size = b.length := by
  have hb := insert_bounds p b hInv hfit
  constructor
  · show goInt16 (readU16 (p.InsertRecord b).1.data
      (PageHeaderSize + insSlotID p * SlotEntrySize)) = _
    rw [insertRecord_ok_data p b hfit,
      readU16_writeHeaderBytes_ge _ _ _ (by unfold PageHeaderSize; omega),
      readU16_writeSlotBytes_off]
    exact goInt16_emod_small _ (by omega) (by omega)
  · show goInt16 (readU16 (p.InsertRecord b).1.data
      (PageHeaderSize + insSlotID p * SlotEntrySize + 2)) = _
    rw [insertRecord_ok_data p b hfit,
      readU16_writeHeaderBytes_ge _ _ _ (by unfold PageHeaderSize; omega),
      readU16_writeSlotBytes_size]
    exact goInt16_emod_small _ (by omega) (by omega)

theorem insert_readSlot_other (p : Page) (b : List Nat) (hInv : PageInv p)
    (hfit : ¬(p.readHeader.FreeEnd - p.readHeader.FreeStart - (SlotEntrySize : Int) < (b.length : Int)))
    (j : Nat) (hj : j < p.readHeader.SlotCount.toNat) (hne : j ≠ insSlotID p) :
    (p.InsertRecord b).1.readSlot j = p.readSlot j := by
  have hb := insert_bounds p b hInv hfit
  obtain ⟨h0, h1, h2, h3, _, _⟩ := hInv
  have hjs : (18 + (j : Int) * 4) + 4 ≤ p.readHeader.FreeEnd - (b.length : Int) := by
    omega
  unfold Page.readSlot
  rw [insertRecord_ok_data p b hfit]
  rw [readU16_writeHeaderBytes_ge _ _ _ (by unfold PageHeaderSize; omega),
    readU16_writeHeaderBytes_ge _ _ _ (by unfold PageHeaderSize; omega)]
  rw [readU16_writeSlotBytes_out _ _ _ _ _ (by unfold PageHeaderSize SlotEntrySize; omega),
    readU16_writeSlotBytes_out _ _ _ _ _ (by unfold PageHeaderSize SlotEntrySize; omega)]
  rw [readU16_copyBytes_out _ _ _ _ (by unfold PageHeaderSize SlotEntrySize; push_cast; omega),
    readU16_copyBytes_out _ _ _ _ (by unfold PageHeaderSize SlotEntrySize; push_cast; omega)]

theorem insert_data_record (p : Page) (b : List Nat) (hInv : PageInv p)
    (hfit : ¬(p.readHeader.FreeEnd - p.readHeader.FreeStart - (SlotEntrySize : Int) < (b.length : Int)))
    (k : Nat) (hk : k < b.length) :
    (p.InsertRecord b).1.data ((p.readHeader.FreeEnd - (b.length : Int)).toNat + k)
      = b.getD k 0 % 256 := by
  have hb := insert_bounds p b hInv hfit
  have hsb := insSlotID_block p ⟨hInv.1, hInv.2.1, hInv.2.2.1, hInv.2.2.2.1,
    hInv.2.2.2.2.1, hInv.2.2.2.2.2⟩
  obtain ⟨h0, h1, h2, h3, _, _⟩ := hInv
  rw [insertRecord_ok_data p b hfit]
  rw [writeHeaderBytes_apply_ge _ _ _ (by omega)]
  rw [writeSlotBytes_apply_ne _ _ _ _ _ (by unfold PageHeaderSize SlotEntrySize; omega)]
  exact copyBytes_apply_in _ _ _ k hk (by omega)

theorem map_getD_range (b : List Nat) :
    (List.range b.length).map (fun k => b.getD k 0) = b := by
  induction b with
  | nil => simp
  | cons x xs ih =>
      rw [List.length_cons, List.range_succ_eq_map, List.map_cons, List.map_map]
      refine congrArg (x :: ·) ?_
      calc List.map ((fun k => (x :: xs).getD k 0) ∘ Nat.succ) (List.range xs.length)
          = List.map (fun k => xs.getD k 0) (List.range xs.length) :=
            List.map_congr_left (fun a _ => rfl)
        _ = xs := ih

/-- After a successful insert of a non-empty byte string, `GetRecord` at
the returned slot yields exactly the inserted bytes. -/
theorem insert_GetRecord (p : Page) (b : List Nat) (hInv : PageInv p)
    (hfit : ¬(p.readHeader.FreeEnd - p.readHeader.FreeStart - (SlotEntrySize : Int) < (b.length : Int)))
    (hne : b ≠ []) (hbytes : ∀ x ∈ b, x < 256) :
    (p.InsertRecord b).1.GetRecord (insSlotID p) = .ok b := by
  have hb := insert_bounds p b hInv hfit
  have hsb := insSlotID_block p hInv
  have hsc := insert_slotCount p b hInv hfit
  have hoffeq := (insert_readSlot_self p b hInv hfit).1
  have hsizeeq := (insert_readSlot_self p b hInv hfit).2
  have hlen0 : 0 < b.length := List.length_pos.mpr hne
  have hFE : p.readHeader.FreeEnd ≤ 4096 := hInv.2.2.2.1
  simp only [Page.GetRecord]
  rw [hsc, if_neg (by push_cast; omega)]
  rw [hoffeq, hsizeeq]
  rw [if_neg (by push_cast; omega)]
  rw [if_neg (by push_cast; omega)]
  rw [if_neg (by push_cast; unfold PageSize; push_cast; omega)]
  congr 1
  have htn : ((b.length : Int)).toNat = b.length := by omega
  rw [htn]
  have hstep : ∀ k ∈ List.range b.length,
      (p.InsertRecord b).1.data ((p.readHeader.FreeEnd - (b.length : Int)).toNat + k) % 256
        = b.getD k 0 := by
    intro k hk
    have hklt := List.mem_range.mp hk
    rw [insert_data_record p b hInv hfit k hklt]
    have : b.getD k 0 < 256 := by
      have hmem : b.getD k 0 ∈ b := by
        rw [List.getD_eq_getElem b 0 hklt]
        exact List.getElem_mem hklt
      exact hbytes _ hmem
    omega
  rw [List.map_congr_left hstep]
  exact map_getD_range b

theorem insert_slot_index_old (p : Page) (hInv : PageInv p) (i : Nat)
    (hi : i < (insHeader1 p).SlotCount.toNat) (hne : i ≠ insSlotID p) :
    i < p.readHeader.SlotCount.toNat := by
  have h0 := hInv.1
  cases hf : insFound p with
  | some ii =>
      rw [insHeader1_some p ii hf] at hi
      exact hi
  | none =>
      have hsceq := (insHeader1_none p hf).1
      have hid := insSlotID_none p hf
      rw [hsceq] at hi
      rw [hid] at hne
      omega

/-- `InsertRecord` preserves the page invariant. -/
theorem pageInv_insert (p : Page) (b : List Nat) (hInv : PageInv p) :
    PageInv (p.InsertRecord b).1 := by
  by_cases hfit : p.readHeader.FreeEnd - p.readHeader.FreeStart - (SlotEntrySize : Int) < (b.length : Int)
  · rw [insertRecord_err p b hfit]
    exact hInv
  · have hb := insert_bounds p b hInv hfit
    have hfe := insert_freeEnd p b hInv hfit
    have hsc := insert_slotCount p b hInv hfit
    have hfs := insert_freeStart p b hInv hfit
    have hself := insert_readSlot_self p b hInv hfit
    have hsb := insSlotID_block p hInv
    have hbd := insHeader1_slotCount_bounds p hInv
    have h0 := hInv.1
    have h1 := hInv.2.1
    have h2 := hInv.2.2.1
    have h3 := hInv.2.2.2.1
    have hreg := hInv.2.2.2.2.1
    have hdisj := hInv.2.2.2.2.2
    have hFSle : (insHeader1 p).FreeStart ≤ p.readHeader.FreeStart + 4 := by
      cases hf : insFound p with
      | some i => rw [insHeader1_some p i hf]; omega
      | none => rw [(insHeader1_none p hf).2]
    refine ⟨?_, ?_, ?_, ?_, ?_, ?_⟩
    · rw [hsc]; omega
    · rw [hfs, hsc]; exact hbd.2.2
    · rw [hfs, hfe]; omega
    · rw [hfe]; omega
    · intro i hi hsz
      rw [hsc] at hi
      by_cases his : i = insSlotID p
      · subst his
        rw [hself.2] at hsz
        rw [hself.1, hself.2, hfe]
        push_cast at hsz
        refine ⟨le_refl _, by omega, by omega⟩
      · have hiSC := insert_slot_index_old p hInv i hi his
        rw [insert_readSlot_other p b hInv hfit i hiSC his] at hsz ⊢
        obtain ⟨ha, hb', hc⟩ := hreg i hiSC hsz
        rw [hfe]
        exact ⟨by omega, hb', hc⟩
    · intro i j hi hj hij hszi hszj
      rw [hsc] at hi hj
      by_cases his : i = insSlotID p <;> by_cases hjs : j = insSlotID p
      · exact absurd (his.trans hjs.symm) hij
      · subst his
        have hjSC := insert_slot_index_old p hInv j hj hjs
        rw [insert_readSlot_other p b hInv hfit j hjSC hjs] at hszj ⊢
        rw [hself.1, hself.2]
        obtain ⟨ha, _, _⟩ := hreg j hjSC hszj
        left
        omega
      · subst hjs
        have hiSC := insert_slot_index_old p hInv i hi his
        rw [insert_readSlot_other p b hInv hfit i hiSC his] at hszi ⊢
        rw [hself.1, hself.2]
        obtain ⟨ha, _, _⟩ := hreg i hiSC hszi
        right
        omega
      · have hiSC := insert_slot_index_old p hInv i hi his
        have hjSC := insert_slot_index_old p hInv j hj hjs
        rw [insert_readSlot_other p b hInv hfit i hiSC his] at hszi ⊢
        rw [insert_readSlot_other p b hInv hfit j hjSC hjs] at hszj ⊢
        exact hdisj i j hiSC hjSC hij hszi hszj

theorem copy_keeps_header (d : Nat → Nat) (off : Int) (b : List Nat) (hoff : 18 ≤ off) :
    readU16 (copyBytes d off b) 4 = readU16 d 4 ∧
      readU16 (copyBytes d off b) 6 = readU16 d 6 ∧
      readU16 (copyBytes d off b) 8 = readU16 d 8 :=
  ⟨readU16_copyBytes_out d off b 4 (by omega),
   readU16_copyBytes_out d off b 6 (by omega),
   readU16_copyBytes_out d off b 8 (by omega)⟩

theorem copy_keeps_slot (d : Nat → Nat) (off : Int) (b : List Nat) (i : Nat)
    (hoff : 18 + 4 * (i : Int) + 4 ≤ off) :
    readU16 (copyBytes d off b) (PageHeaderSize + i * SlotEntrySize)
        = readU16 d (PageHeaderSize + i * SlotEntrySize) ∧
      readU16 (copyBytes d off b) (PageHeaderSize + i * SlotEntrySize + 2)
        = readU16 d (PageHeaderSize + i * SlotEntrySize + 2) :=
  ⟨readU16_copyBytes_out d off b _ (by unfold PageHeaderSize SlotEntrySize; push_cast; omega),
   readU16_copyBytes_out d off b _ (by unfold PageHeaderSize SlotEntrySize; push_cast; omega)⟩

/-- A copy landing entirely at or above `FreeEnd` changes neither the
header nor any slot entry, hence keeps the invariant. -/
theorem pageInv_copy_ge_freeEnd (p : Page) (off : Int) (b : List Nat) (hInv : PageInv p)
    (hoff : p.readHeader.FreeEnd ≤ off) :
    PageInv ⟨p.pageID, copyBytes p.data off b, true⟩ := by
  have h0 := hInv.1
  have h1 := hInv.2.1
  have h2 := hInv.2.2.1
  have h3 := hInv.2.2.2.1
  have hreg := hInv.2.2.2.2.1
  have hdisj := hInv.2.2.2.2.2
  have hoff18 : (18 : Int) ≤ off := by omega
  have hHd : Page.readHeader ⟨p.pageID, copyBytes p.data off b, true⟩ = p.readHeader := by
    unfold Page.readHeader
    rw [show (Page.mk p.pageID (copyBytes p.data off b) true).data
      = copyBytes p.data off b from rfl]
    rw [readU16_copyBytes_out _ _ _ 4 (by push_cast; omega),
      readU16_copyBytes_out _ _ _ 6 (by push_cast; omega),
      readU16_copyBytes_out _ _ _ 8 (by push_cast; omega),
      readU32_copyBytes_out _ _ _ 0 (by push_cast; omega),
      readU32_copyBytes_out _ _ _ 10 (by push_cast; omega),
      readU32_copyBytes_out _ _ _ 14 (by push_cast; omega)]
  have hRS : ∀ i : Nat, i < p.readHeader.SlotCount.toNat →
      Page.readSlot ⟨p.pageID, copyBytes p.data off b, true⟩ i = p.readSlot i := by
    intro i hi
    unfold Page.readSlot
    rw [show (Page.mk p.pageID (copyBytes p.data off b) true).data
      = copyBytes p.data off b from rfl]
    rw [readU16_copyBytes_out _ _ _ _
        (by unfold PageHeaderSize SlotEntrySize; push_cast; omega),
      readU16_copyBytes_out _ _ _ _
        (by unfold PageHeaderSize SlotEntrySize; push_cast; omega)]
  refine ⟨?_, ?_, ?_, ?_, ?_, ?_⟩
  · rw [hHd]; exact h0
  · rw [hHd]; exact h1
  · rw [hHd]; exact h2
  · rw [hHd]; exact h3
  · intro i hi hsz2
    rw [hHd] at hi ⊢
    rw [hRS i hi] at hsz2 ⊢
    exact hreg i hi hsz2
  · intro i j hi hj hij hszi hszj
    rw [hHd] at hi hj
    rw [hRS i hi] at hszi ⊢
    rw [hRS j hj] at hszj ⊢
    exact hdisj i j hi hj hij hszi hszj

/-- `UpdateRecord` preserves the page invariant. -/
theorem pageInv_update (p : Page) (s : Nat) (b : List Nat) (hInv : PageInv p) :
    PageInv (p.UpdateRecord s b).1 := by
  have hreg := hInv.2.2.2.2.1
  simp only [Page.UpdateRecord]
  split
  · exact hInv
  · split
    · exact hInv
    · split
      · exact hInv
      · rename_i hslt hsz hlen
        have hsSC : s < p.readHeader.SlotCount.toNat := by
          have h0 := hInv.1
          omega
        obtain ⟨hoffFE, _, _⟩ := hreg s hsSC hsz
        exact pageInv_copy_ge_freeEnd p (p.readSlot s).Offset b hInv hoffFE

/-- `DeleteRecord` preserves the page invariant. -/
theorem pageInv_delete (p : Page) (s : Nat) (hInv : PageInv p) :
    PageInv (p.DeleteRecord s).1 := by
  have h0 := hInv.1
  have h1 := hInv.2.1
  have h2 := hInv.2.2.1
  have h3 := hInv.2.2.2.1
  have hreg := hInv.2.2.2.2.1
  have hdisj := hInv.2.2.2.2.2
  simp only [Page.DeleteRecord]
  split
  · exact hInv
  · split
    · exact hInv
    · rename_i hslt hsz
      have hHd : Page.readHeader ⟨p.pageID, writeSlotBytes p.data s 0 0, true⟩
          = p.readHeader := by
        unfold Page.readHeader
        rw [show (Page.mk p.pageID (writeSlotBytes p.data s 0 0) true).data
          = writeSlotBytes p.data s 0 0 from rfl]
        rw [readU16_writeSlotBytes_out _ _ _ _ 4
            (by unfold PageHeaderSize SlotEntrySize; omega),
          readU16_writeSlotBytes_out _ _ _ _ 6
            (by unfold PageHeaderSize SlotEntrySize; omega),
          readU16_writeSlotBytes_out _ _ _ _ 8
            (by unfold PageHeaderSize SlotEntrySize; omega),
          readU32_writeSlotBytes_out _ _ _ _ 0
            (by unfold PageHeaderSize SlotEntrySize; omega),
          readU32_writeSlotBytes_out _ _ _ _ 10
            (by unfold PageHeaderSize SlotEntrySize; omega),
          readU32_writeSlotBytes_out _ _ _ _ 14
            (by unfold PageHeaderSize SlotEntrySize; omega)]
      have hRSo : ∀ i : Nat, i ≠ s →
          Page.readSlot ⟨p.pageID, writeSlotBytes p.data s 0 0, true⟩ i = p.readSlot i := by
        intro i hne
        unfold Page.readSlot
        rw [show (Page.mk p.pageID (writeSlotBytes p.data s 0 0) true).data
          = writeSlotBytes p.data s 0 0 from rfl]
        rw [readU16_writeSlotBytes_out _ _ _ _ _
            (by unfold PageHeaderSize SlotEntrySize; omega),
          readU16_writeSlotBytes_out _ _ _ _ _
            (by unfold PageHeaderSize SlotEntrySize; omega)]
      have hRSs : (Page.readSlot ⟨p.pageID, writeSlotBytes p.data s 0 0, true⟩ s).Size = 0 := by
        show goInt16 (readU16 (writeSlotBytes p.data s 0 0)
          (PageHeaderSize + s * SlotEntrySize + 2)) = 0
        rw [readU16_writeSlotBytes_size]
        decide
      refine ⟨?_, ?_, ?_, ?_, ?_, ?_⟩
      · rw [hHd]; exact h0
      · rw [hHd]; exact h1
      · rw [hHd]; exact h2
      · rw [hHd]; exact h3
      · intro i hi hsz2
        rw [hHd] at hi
        by_cases his : i = s
        · subst his
          rw [hRSs] at hsz2
          exact absurd rfl hsz2
        · rw [hRSo i his] at hsz2 ⊢
          rw [hHd]
          exact hreg i hi hsz2
      · intro i j hi hj hij hszi hszj
        rw [hHd] at hi hj
        by_cases his : i = s
        · subst his
          rw [hRSs] at hszi
          exact absurd rfl hszi
        · by_cases hjs : j = s
          · subst hjs
            rw [hRSs] at hszj
            exact absurd rfl hszj
          · rw [hRSo i his] at hszi ⊢
            rw [hRSo j hjs] at hszj ⊢
            exact hdisj i j hi hj hij hszi hszj

/-! ## Pages reachable from `NewPage` -/

/-- One page mutation (`InsertRecord`, `UpdateRecord` or `DeleteRecord`);
the page component of the result models the in-place mutation. -/
inductive PageOp where
  | insOp (r : List Nat)
  | updOp (s : Nat) (r : List Nat)
  | delOp (s : Nat)

/-- Apply one operation to a page (keeping the page regardless of
success, as the Go receiver is). -/
def applyPageOp (p : Page) : PageOp → Page
  | .insOp r => (p.InsertRecord r).1
  | .updOp s r => (p.UpdateRecord s r).1
  | .delOp s => (p.DeleteRecord s).1

/-- Run a sequence of page operations. -/
def runPageOps (p : Page) (ops : List PageOp) : Page :=
  ops.foldl applyPageOp p

theorem pageInv_applyPageOp (p : Page) (op : PageOp) (hInv : PageInv p) :
    PageInv (applyPageOp p op) := by
  cases op with
  | insOp r => exact pageInv_insert p r hInv
  | updOp s r => exact pageInv_update p s r hInv
  | delOp s => exact pageInv_delete p s hInv

theorem pageInv_runPageOps (ops : List PageOp) :
    ∀ p : Page, PageInv p → PageInv (runPageOps p ops) := by
  induction ops with
  | nil => intro p h; exact h
  | cons op rest ih =>
      intro p h
      exact ih (applyPageOp p op) (pageInv_applyPageOp p op h)

/-- C2: every page reachable from `NewPage` by any sequence of
`InsertRecord`, `UpdateRecord` and `DeleteRecord` operations satisfies
the spec's page invariants: `FreeStart = PageHeaderSize + SlotCount*4`,
`FreeStart ≤ FreeEnd`, every non-empty slot's record region is contained
in `[FreeEnd, PageSize)`, and the regions of distinct non-empty slots are
disjoint. -/
theorem C2_page_invariants (pid : Int) (ops : List PageOp) :
    (runPageOps (NewPage pid) ops).readHeader.FreeStart
        = (PageHeaderSize : Int) + (runPageOps (NewPage pid) ops).readHeader.SlotCount * 4 ∧
      (runPageOps (NewPage pid) ops).readHeader.FreeStart
        ≤ (runPageOps (NewPage pid) ops).readHeader.FreeEnd ∧
      (∀ i : Nat, i < (runPageOps (NewPage pid) ops).readHeader.SlotCount.toNat →
        ((runPageOps (NewPage pid) ops).readSlot i).Size ≠ 0 →
        (runPageOps (NewPage pid) ops).readHeader.FreeEnd
            ≤ ((runPageOps (NewPage pid) ops).readSlot i).Offset ∧
          ((runPageOps (NewPage pid) ops).readSlot i).Offset
              + ((runPageOps (NewPage pid) ops).readSlot i).Size ≤ (PageSize : Int)) ∧
      (∀ i j : Nat, i < (runPageOps (NewPage pid) ops).readHeader.SlotCount.toNat →
        j < (runPageOps (NewPage pid) ops).readHeader.SlotCount.toNat → i ≠ j →
        ((runPageOps (NewPage pid) ops).readSlot i).Size ≠ 0 →
        ((runPageOps (NewPage pid) ops).readSlot j).Size ≠ 0 →
        ((runPageOps (NewPage pid) ops).readSlot i).Offset
            + ((runPageOps (NewPage pid) ops).readSlot i).Size
            ≤ ((runPageOps (NewPage pid) ops).readSlot j).Offset ∨
          ((runPageOps (NewPage pid) ops).readSlot j).Offset
              + ((runPageOps (NewPage pid) ops).readSlot j).Size
              ≤ ((runPageOps (NewPage pid) ops).readSlot i).Offset) := by
  have hInv := pageInv_runPageOps ops (NewPage pid) (pageInv_newPage pid)
  obtain ⟨h0, h1, h2, h3, hreg, hdisj⟩ := hInv
  refine ⟨?_, h2, ?_, hdisj⟩
  · rw [h1]
    unfold PageHeaderSize
    push_cast
    ring
  · intro i hi hsz
    obtain ⟨ha, _, hc⟩ := hreg i hi hsz
    exact ⟨ha, by unfold PageSize; push_cast; omega⟩

theorem readU16_lt (d : Nat → Nat) (i : Nat) : readU16 d i < 65536 := by
  unfold readU16
  have h1 : d i % 256 < 256 := Nat.mod_lt _ (by norm_num)
  have h2 : d (i + 1) % 256 < 256 := Nat.mod_lt _ (by norm_num)
  omega

theorem goInt16_zero_iff (v : Nat) (h : v < 65536) : goInt16 v = 0 ↔ v = 0 := by
  unfold goInt16
  split <;> omega

theorem readSlot_size_zero_iff (p : Page) (i : Nat) :
    (p.readSlot i).Size = 0 ↔ readU16 p.data (PageHeaderSize + i * SlotEntrySize + 2) = 0 := by
  show goInt16 _ = 0 ↔ _
  exact goInt16_zero_iff _ (readU16_lt _ _)

theorem insert_ok_fits (p : Page) (b : List Nat) (s : Nat)
    (hok : (p.InsertRecord b).2 = .ok s) :
    ¬(p.readHeader.FreeEnd - p.readHeader.FreeStart - (SlotEntrySize : Int) < (b.length : Int)) := by
  intro hfull
  rw [insertRecord_err p b hfull] at hok
  cases hok

theorem insert_ok_slot (p : Page) (b : List Nat) (s : Nat)
    (hok : (p.InsertRecord b).2 = .ok s) : s = insSlotID p := by
  have hfit := insert_ok_fits p b s hok
  rw [insertRecord_ok_res p b hfit] at hok
  injection hok with h
  exact h.symm

/-- C6: on a well-formed page, an insert whose record leaves free space
exactly `len + SlotEntrySize` succeeds, while one byte less fails with
PageFull and leaves the page untouched (the implementation charges
`SlotEntrySize` regardless of slot reuse). -/
theorem C6_exact_fit_boundary (p : Page) (r : List Nat) (hInv : PageInv p) :
    (p.readHeader.FreeEnd - p.readHeader.FreeStart = (r.length : Int) + SlotEntrySize →
      (p.InsertRecord r).2 = .ok (insSlotID p)) ∧
    (p.readHeader.FreeEnd - p.readHeader.FreeStart = (r.length : Int) + SlotEntrySize - 1 →
      (p.InsertRecord r).2 = .error .pageFull ∧ (p.InsertRecord r).1 = p) := by
  constructor
  · intro heq
    exact insertRecord_ok_res p r (by unfold SlotEntrySize at heq ⊢; omega)
  · intro heq
    have herr := insertRecord_err p r (by unfold SlotEntrySize at heq ⊢; omega)
    exact ⟨by rw [herr], by rw [herr]⟩

/-- C7: a successful insert reuses the smallest tombstoned slot, keeping
`SlotCount` and `FreeStart` unchanged; only when every slot in
`[0, SlotCount)` is non-empty does it append a new slot at `SlotCount`,
incrementing `SlotCount` and `FreeStart`. -/
theorem C7_slot_reuse (p : Page) (b : List Nat) (s : Nat) (hInv : PageInv p)
    (hok : (p.InsertRecord b).2 = .ok s) :
    ((∃ i, i < p.readHeader.SlotCount.toNat ∧ (p.readSlot i).Size = 0) →
      s < p.readHeader.SlotCount.toNat ∧ (p.readSlot s).Size = 0 ∧
        (∀ j < s, (p.readSlot j).Size ≠ 0) ∧
        (p.InsertRecord b).1.readHeader.SlotCount = p.readHeader.SlotCount ∧
        (p.InsertRecord b).1.readHeader.FreeStart = p.readHeader.FreeStart) ∧
    ((∀ i, i < p.readHeader.SlotCount.toNat → (p.readSlot i).Size ≠ 0) →
      s = p.readHeader.SlotCount.toNat ∧
        (p.InsertRecord b).1.readHeader.SlotCount = p.readHeader.SlotCount + 1 ∧
        (p.InsertRecord b).1.readHeader.FreeStart = p.readHeader.FreeStart + 4) := by
  have hfit := insert_ok_fits p b s hok
  have hs := insert_ok_slot p b s hok
  have hsc := insert_slotCount p b hInv hfit
  have hfs := insert_freeStart p b hInv hfit
  constructor
  · intro ⟨i0, hi0, hsz0⟩
    cases hf : insFound p with
    | none =>
        exfalso
        have hnone := scanSlots_range_none p.data p.readHeader.SlotCount.toNat hf
        exact hnone i0 hi0 ((readSlot_size_zero_iff p i0).mp hsz0)
    | some i1 =>
        obtain ⟨hlt, hzero, hbefore⟩ := scanSlots_range_some _ _ _ hf
        have hsid := insSlotID_some p i1 hf
        rw [hs, hsid]
        refine ⟨hlt, (readSlot_size_zero_iff p i1).mpr hzero, ?_, ?_, ?_⟩
        · intro j hj hzj
          exact hbefore j hj ((readSlot_size_zero_iff p j).mp hzj)
        · rw [hsc, insHeader1_some p i1 hf]
        · rw [hfs, insHeader1_some p i1 hf]
  · intro hall
    cases hf : insFound p with
    | some i1 =>
        exfalso
        obtain ⟨hlt, hzero, _⟩ := scanSlots_range_some _ _ _ hf
        exact hall i1 hlt ((readSlot_size_zero_iff p i1).mpr hzero)
    | none =>
        have hsid := insSlotID_none p hf
        obtain ⟨hbsc, hbfs⟩ := insHeader1_none p hf
        refine ⟨by rw [hs, hsid], by rw [hsc, hbsc], by rw [hfs, hbfs]⟩

/-- C8: for a valid non-empty slot, `UpdateRecord` fails with
SizeMismatch whenever the length differs from the slot size; every
failure leaves the page entirely unchanged; success overwrites exactly
the slot's record region (bytes outside it are untouched) and marks the
page dirty. -/
theorem C8_update_record_spec (p : Page) (s : Nat) (b : List Nat) (hInv : PageInv p) :
    ((s : Int) < p.readHeader.SlotCount → (p.readSlot s).Size ≠ 0 →
      (b.length : Int) ≠ (p.readSlot s).Size →
      (p.UpdateRecord s b).2 = .error .sizeMismatch) ∧
    (∀ e : Err, (p.UpdateRecord s b).2 = .error e → (p.UpdateRecord s b).1 = p) ∧
    ((p.UpdateRecord s b).2 = .ok () →
      (p.UpdateRecord s b).1.dirty = true ∧
      (∀ j : Nat, ((j : Int) < (p.readSlot s).Offset ∨
          (p.readSlot s).Offset + (p.readSlot s).Size ≤ (j : Int)) →
        (p.UpdateRecord s b).1.data j = p.data j) ∧
      (∀ k : Nat, k < b.length →
        (p.UpdateRecord s b).1.data ((p.readSlot s).Offset.toNat + k) = b.getD k 0 % 256)) := by
  have hreg := hInv.2.2.2.2.1
  have h0 := hInv.1
  have h1 := hInv.2.1
  have h2 := hInv.2.2.1
  simp only [Page.UpdateRecord]
  split
  · rename_i hge
    refine ⟨fun hlt _ _ => absurd hlt (by omega), fun e _ => rfl, fun hok => by cases hok⟩
  · rename_i hge
    split
    · rename_i hzero
      refine ⟨fun _ hnz _ => absurd hzero hnz, fun e _ => rfl, fun hok => by cases hok⟩
    · rename_i hzero
      split
      · refine ⟨fun _ _ _ => rfl, fun e _ => rfl, fun hok => by cases hok⟩
      · rename_i hlen
        have hsSC : s < p.readHeader.SlotCount.toNat := by omega
        obtain ⟨hoffFE, hszpos, hbound⟩ := hreg s hsSC hzero
        refine ⟨fun h3 h4 h5 => absurd (by omega) h5, fun e he => by simp at he, fun _ => ?_⟩
        refine ⟨rfl, ?_, ?_⟩
        · intro j hj
          exact copyBytes_apply_out _ _ _ _ (by push_cast; omega)
        · intro k hk
          exact copyBytes_apply_in _ _ _ k hk (by omega)

/-! ## Small concrete pages for the boundary witnesses -/

/-- An empty well-formed page whose free region is only `[18, 25)`:
free space 7 bytes. -/
def pW : Page := ⟨0, writeHeaderBytes (fun _ => 0) ⟨0, 0, 18, 25, -1, -1⟩, false⟩

theorem pageInv_pW : PageInv pW := by
  have hz : pW.readHeader.SlotCount.toNat = 0 := by decide
  refine ⟨by decide, by decide, by decide, by decide, ?_, ?_⟩
  · intro i hi
    rw [hz] at hi
    omega
  · intro i j hi
    rw [hz] at hi
    omega

/-- An empty well-formed page whose free region is `[18, 40)`. -/
def pW2 : Page := ⟨0, writeHeaderBytes (fun _ => 0) ⟨0, 0, 18, 40, -1, -1⟩, false⟩

theorem pageInv_pW2 : PageInv pW2 := by
  have hz : pW2.readHeader.SlotCount.toNat = 0 := by decide
  refine ⟨by decide, by decide, by decide, by decide, ?_, ?_⟩
  · intro i hi
    rw [hz] at hi
    omega
  · intro i j hi
    rw [hz] at hi
    omega

/-- `pW2` after inserting a one-byte record into slot 0. -/
def pIns1 : Page := (pW2.InsertRecord [1]).1

/-- `pIns1` after inserting a second record into slot 1. -/
def pIns2 : Page := (pIns1.InsertRecord [2]).1

/-- `pIns2` after tombstoning slot 0. -/
def pDel : Page := (pIns2.DeleteRecord 0).1

/-- Witness for C6 at a concrete page: free space 7; a 3-byte record
(7 = 3 + SlotEntrySize) fits exactly, a 4-byte record fails with
PageFull and leaves the page unchanged. -/
theorem C6_exact_fit_boundary_witness :
    (pW.InsertRecord [1, 2, 3]).2 = .ok (insSlotID pW) ∧
      (pW.InsertRecord [1, 2, 3, 4]).2 = .error .pageFull ∧
      (pW.InsertRecord [1, 2, 3, 4]).1 = pW := by
  have h1 := (C6_exact_fit_boundary pW [1, 2, 3] pageInv_pW).1 (by decide)
  have h2 := (C6_exact_fit_boundary pW [1, 2, 3, 4] pageInv_pW).2 (by decide)
  exact ⟨h1, h2.1, h2.2⟩

/-- Witness for C7 at a concrete page: after deleting slot 0 of a
two-record page, the next insert reuses slot 0 and leaves `SlotCount`
and `FreeStart` unchanged. -/
theorem C7_slot_reuse_witness :
    (pDel.InsertRecord [3]).2 = .ok 0 ∧
      0 < pDel.readHeader.SlotCount.toNat ∧ (pDel.readSlot 0).Size = 0 ∧
      (pDel.InsertRecord [3]).1.readHeader.SlotCount = pDel.readHeader.SlotCount ∧
      (pDel.InsertRecord [3]).1.readHeader.FreeStart = pDel.readHeader.FreeStart := by
  have hInv : PageInv pDel :=
    pageInv_delete _ _ (pageInv_insert _ _ (pageInv_insert _ _ pageInv_pW2))
  have h := C7_slot_reuse pDel [3] 0 hInv (by decide)
  have h1 := h.1 ⟨0, by decide, by decide⟩
  exact ⟨by decide, by decide, by decide, h1.2.2.2.1, h1.2.2.2.2⟩

/-- Witness for C8 at a concrete page: updating the 1-byte record in
slot 0 with 2 bytes fails with SizeMismatch and leaves the page
unchanged; updating with 1 byte succeeds, overwrites the record byte
and marks the page dirty. -/
theorem C8_update_record_spec_witness :
    (pIns1.UpdateRecord 0 [7, 8]).2 = .error .sizeMismatch ∧
      (pIns1.UpdateRecord 0 [7, 8]).1 = pIns1 ∧
      (pIns1.UpdateRecord 0 [9]).1.dirty = true ∧
      (pIns1.UpdateRecord 0 [9]).1.data 39 = 9 := by
  have hInv : PageInv pIns1 := pageInv_insert _ _ pageInv_pW2
  have hA := C8_update_record_spec pIns1 0 [7, 8] hInv
  have hB := C8_update_record_spec pIns1 0 [9] hInv
  have herr : (pIns1.UpdateRecord 0 [7, 8]).2 = .error .sizeMismatch :=
    hA.1 (by decide) (by decide) (by decide)
  have hok := hB.2.2 (by decide)
  refine ⟨herr, hA.2.1 _ herr, hok.1, ?_⟩
  have hdata := hok.2.2 0 (by decide)
  have h39 : (pIns1.readSlot 0).Offset.toNat = 39 := by decide
  rw [h39] at hdata
  simpa using hdata

/-! ## Structural lemmas about the storage layer -/

theorem cacheSet_indexes (st : FSL) (t : String) (pid : Int) (p : Page) :
    (st.cacheSet t pid p).indexes = st.indexes := rfl

theorem cacheSet_isOpen (st : FSL) (t : String) (pid : Int) (p : Page) :
    (st.cacheSet t pid p).isOpen = st.isOpen := rfl

theorem cacheSet_cacheGet_self (st : FSL) (t : String) (pid : Int) (p : Page) :
    (st.cacheSet t pid p).cacheGet t pid = some p := by
  unfold FSL.cacheSet FSL.cacheGet
  simp

theorem getPage_indexes (st : FSL) (t : String) (pid : Int) :
    ((st.getPage t pid).1).indexes = st.indexes := by
  simp only [FSL.getPage]
  split
  · rfl
  · split
    · rfl
    · split
      · rfl
      · rfl

theorem getPage_isOpen (st : FSL) (t : String) (pid : Int) :
    ((st.getPage t pid).1).isOpen = st.isOpen := by
  simp only [FSL.getPage]
  split
  · rfl
  · split
    · rfl
    · split
      · rfl
      · rfl

/-- C9: after a successful `DeleteRecord`, the id's mapping is gone from
the table's index and a subsequent `Get` of the same id fails with
NotFound. -/
theorem C9_delete_then_get_notfound (st : FSL) (t : String) (id : Int)
    (hok : (st.DeleteRecord t id).2 = .ok ()) :
    ∃ idx1 : SimpleIndex, ((st.DeleteRecord t id).1).indexes t = some idx1 ∧
      idx1.Search id = none ∧
      (((st.DeleteRecord t id).1).Get t id).2 = .err .notFound := by
  unfold FSL.DeleteRecord at hok ⊢
  cases hopen : st.isOpen with
  | false =>
      rw [if_pos (by simp [hopen])] at hok
      simp at hok
  | true =>
      rw [if_neg (by simp [hopen])] at hok ⊢
      cases hidx : st.indexes t with
      | none =>
              simp only [hidx] at hok
              cases hok
      | some idx =>
          simp only [hidx] at hok ⊢
          cases hsearch : idx.Search id with
          | none =>
              simp only [hsearch] at hok
              cases hok
          | some rid =>
              simp only [hsearch] at hok ⊢
              cases hget : (st.getPage t rid.PageID).2 with
              | error e =>
                  simp only [hget] at hok
                  cases hok
              | ok p =>
                  simp only [hget] at hok ⊢
                  cases hdel : (p.DeleteRecord rid.SlotID).2 with
                  | error e =>
                      simp only [hdel] at hok
                      cases hok
                  | ok u =>
                      simp only [hdel] at hok ⊢
                      have hidx2 : ((st.getPage t rid.PageID).1.cacheSet t rid.PageID
                          (p.DeleteRecord rid.SlotID).1).indexes t = some idx := by
                        rw [cacheSet_indexes, getPage_indexes]
                        exact hidx
                      simp only [hidx2] at hok ⊢
                      have hfound : idx.index id = some rid := hsearch
                      simp only [SimpleIndex.Delete, hfound] at hok ⊢
                      refine ⟨⟨fun k => if k = id then none else idx.index k, idx.nextID⟩,
                        by simp, by simp [SimpleIndex.Search], ?_⟩
                      unfold FSL.Get
                      have hopen3 : ((st.getPage t rid.PageID).1.cacheSet t rid.PageID
                          (p.DeleteRecord rid.SlotID).1).isOpen = true := by
                        rw [cacheSet_isOpen, getPage_isOpen]
                        exact hopen
                      rw [if_neg (by simp [hopen3])]
                      simp [SimpleIndex.Search]

/-! ## Well-formed storage-layer states -/

/-- The bytes of a table's heap file (a missing file reads as empty). -/
def contentOf (fs : FileSys) (t : String) : List Nat :=
  (fs t).getD []

theorem contentOf_getFile (dm : DM) (fs : FileSys) (t s : String) :
    contentOf ((dm.getFile fs t).2) s = contentOf fs s := by
  unfold DM.getFile contentOf
  split
  · rfl
  · by_cases hs : s = t <;> simp [hs]

theorem ReadPage_ok_iff (dm : DM) (fs : FileSys) (t : String) (pid : Int) (data : List Nat) :
    (DM.ReadPage dm fs t pid).2.2 = .ok data ↔
      0 ≤ pid * ((PageSize : Nat) : Int) ∧
        pid * ((PageSize : Nat) : Int) + ((PageSize : Nat) : Int) ≤ ((contentOf fs t).length : Int) ∧
        data = (List.range PageSize).map
          (fun k => (contentOf fs t).getD ((pid * ((PageSize : Nat) : Int)).toNat + k) 0) := by
  have hc : ((dm.getFile fs t).2 t).getD [] = contentOf fs t := contentOf_getFile dm fs t t
  simp only [DM.ReadPage, hc]
  split
  · rename_i hcond
    constructor
    · intro h
      injection h with h
      exact ⟨hcond.1, hcond.2, h.symm⟩
    · intro ⟨_, _, h⟩
      rw [h]
  · rename_i hcond
    constructor
    · intro h
      cases h
    · intro ⟨h1, h2, _⟩
      exact absurd ⟨h1, h2⟩ hcond

/-- Every page image readable from the heap files loads to a page
satisfying the page invariant. -/
def DiskWF (fs : FileSys) : Prop :=
  ∀ (dm : DM) (t : String) (pid : Int) (data : List Nat) (pg : Page),
    (DM.ReadPage dm fs t pid).2.2 = .ok data → LoadPage pid data = some pg → PageInv pg

/-- Well-formed state: every cached page and every loadable disk page
satisfies the page invariant. -/
def StateWF (st : FSL) : Prop :=
  (∀ (t : String) (pid : Int) (p : Page), st.cacheGet t pid = some p → PageInv p) ∧
    DiskWF st.fs

theorem DiskWF_of_contentOf_eq (fs fs' : FileSys)
    (h : ∀ s, contentOf fs' s = contentOf fs s) (hWF : DiskWF fs) : DiskWF fs' := by
  intro dm t pid data pg hread hload
  have := (ReadPage_ok_iff dm fs' t pid data).mp hread
  rw [h t] at this
  exact hWF dm t pid data pg ((ReadPage_ok_iff dm fs t pid data).mpr this) hload

theorem cacheGet_cacheSet_ne (st : FSL) (t : String) (pid : Int) (p : Page)
    (t' : String) (pid' : Int) (hne : ¬(t' = t ∧ pid' = pid)) :
    (st.cacheSet t pid p).cacheGet t' pid' = st.cacheGet t' pid' := by
  unfold FSL.cacheSet FSL.cacheGet
  by_cases ht : t' = t
  · subst ht
    have hp : pid' ≠ pid := fun h => hne ⟨rfl, h⟩
    simp only [if_pos rfl, if_neg hp]
    cases h : st.pageCache t' <;> simp [h, hp]
  · simp [ht]

theorem cacheSet_fs (st : FSL) (t : String) (pid : Int) (p : Page) :
    (st.cacheSet t pid p).fs = st.fs := rfl

theorem StateWF_cacheSet (st : FSL) (t : String) (pid : Int) (p : Page)
    (hWF : StateWF st) (hp : PageInv p) : StateWF (st.cacheSet t pid p) := by
  constructor
  · intro t' pid' q hq
    by_cases hcase : t' = t ∧ pid' = pid
    · obtain ⟨rfl, rfl⟩ := hcase
      rw [cacheSet_cacheGet_self] at hq
      injection hq with hq
      rw [← hq]
      exact hp
    · rw [cacheGet_cacheSet_ne st t pid p t' pid' hcase] at hq
      exact hWF.1 t' pid' q hq
  · exact hWF.2

theorem getPage_WF (st : FSL) (t : String) (pid : Int) (hWF : StateWF st) :
    StateWF (st.getPage t pid).1 ∧
      ∀ p : Page, (st.getPage t pid).2 = .ok p → PageInv p := by
  simp only [FSL.getPage]
  split
  · rename_i p hp
    refine ⟨hWF, ?_⟩
    intro q hq
    injection hq with hq
    exact hWF.1 t pid q (by rw [hp, hq])
  · rename_i hmiss
    have hWF1 : StateWF { st with dm := (st.dm.ReadPage st.fs t pid).1, fs := (st.dm.ReadPage st.fs t pid).2.1 } := by
      constructor
      · intro t' pid' q hq
        exact hWF.1 t' pid' q hq
      · apply DiskWF_of_contentOf_eq st.fs _ _ hWF.2
        intro s
        show contentOf (st.dm.ReadPage st.fs t pid).2.1 s = contentOf st.fs s
        have : (st.dm.ReadPage st.fs t pid).2.1 = (st.dm.getFile st.fs t).2 := by
          simp only [DM.ReadPage]
          split <;> rfl
        rw [this]
        exact contentOf_getFile st.dm st.fs t s
    split
    · refine ⟨hWF1, ?_⟩
      intro p hp
      cases hp
    · rename_i data hdata
      split
      · refine ⟨hWF1, ?_⟩
        intro p hp
        cases hp
      · rename_i pg hpg
        have hpgInv : PageInv pg := hWF.2 st.dm t pid data pg hdata hpg
        refine ⟨StateWF_cacheSet _ _ _ _ hWF1 hpgInv, ?_⟩
        intro q hq
        injection hq with hq
        rw [← hq]
        exact hpgInv

theorem tryPages_fields (t : String) (b : List Nat) :
    ∀ (pids : List Nat) (st : FSL),
      (st.tryPages t b pids).1.isOpen = st.isOpen ∧
        (st.tryPages t b pids).1.indexes = st.indexes := by
  intro pids
  induction pids with
  | nil => intro st; exact ⟨rfl, rfl⟩
  | cons i rest ih =>
      intro st
      simp only [FSL.tryPages]
      split
      · obtain ⟨ho, hi⟩ := ih (st.getPage t (i : Int)).1
        rw [ho, hi, getPage_isOpen, getPage_indexes]
        exact ⟨rfl, rfl⟩
      · rename_i p hp
        split
        · rw [cacheSet_isOpen, cacheSet_indexes, getPage_isOpen, getPage_indexes]
          exact ⟨rfl, rfl⟩
        · obtain ⟨ho, hi⟩ := ih ((st.getPage t (i : Int)).1.cacheSet t (i : Int)
            (p.InsertRecord b).1)
          rw [ho, hi, cacheSet_isOpen, cacheSet_indexes, getPage_isOpen, getPage_indexes]
          exact ⟨rfl, rfl⟩

theorem tryPages_ok_WF (t : String) (b : List Nat) :
    ∀ (pids : List Nat) (st : FSL), StateWF st →
      StateWF (st.tryPages t b pids).1 ∧
        ∀ ps : Int × Nat, (st.tryPages t b pids).2 = some ps →
          ∃ p : Page, PageInv p ∧ (p.InsertRecord b).2 = .ok ps.2 ∧
            (st.tryPages t b pids).1.cacheGet t ps.1 = some (p.InsertRecord b).1 := by
  intro pids
  induction pids with
  | nil =>
      intro st hWF
      exact ⟨hWF, fun ps h => by cases h⟩
  | cons i rest ih =>
      intro st hWF
      simp only [FSL.tryPages]
      split
      · exact ih (st.getPage t (i : Int)).1 (getPage_WF st t (i : Int) hWF).1
      · rename_i p hp
        have hpInv : PageInv p := (getPage_WF st t (i : Int) hWF).2 p hp
        have hWF2 : StateWF ((st.getPage t (i : Int)).1.cacheSet t (i : Int)
            (p.InsertRecord b).1) :=
          StateWF_cacheSet _ _ _ _ (getPage_WF st t (i : Int) hWF).1 (pageInv_insert p b hpInv)
        split
        · rename_i slot hslot
          refine ⟨hWF2, ?_⟩
          intro ps hps
          injection hps with hps
          subst hps
          exact ⟨p, hpInv, hslot, cacheSet_cacheGet_self _ _ _ _⟩
        · exact ih _ hWF2

theorem AllocatePage_fs (dm : DM) (fs : FileSys) (t : String) :
    (DM.AllocatePage dm fs t).2.1 = (dm.getFile fs t).2 := rfl

theorem insertRecordFinish_fields (st2 : FSL) (t : String) (pid : Int)
    (pr : Page × Except Err Nat) :
    (st2.insertRecordFinish t pid pr).1.isOpen = st2.isOpen ∧
      (st2.insertRecordFinish t pid pr).1.indexes = st2.indexes := by
  rcases pr with ⟨p, e⟩
  cases e with
  | error e => exact ⟨rfl, rfl⟩
  | ok s => exact ⟨cacheSet_isOpen _ _ _ _, cacheSet_indexes _ _ _ _⟩

theorem insertRecordAfter_fields (st1 : FSL) (t : String) (b : List Nat)
    (o : Option (Int × Nat)) :
    (st1.insertRecordAfter t b o).1.isOpen = st1.isOpen ∧
      (st1.insertRecordAfter t b o).1.indexes = st1.indexes := by
  cases o with
  | some ps => exact ⟨rfl, rfl⟩
  | none => exact insertRecordFinish_fields _ _ _ _

theorem insertRecord_fields (st : FSL) (t : String) (b : List Nat) :
    (st.insertRecord t b).1.isOpen = st.isOpen ∧
      (st.insertRecord t b).1.indexes = st.indexes := by
  obtain ⟨ho, hi⟩ := insertRecordAfter_fields
    (st.tryPages t b (List.range (st.dm.GetPageCount t).toNat)).1 t b
    (st.tryPages t b (List.range (st.dm.GetPageCount t).toNat)).2
  obtain ⟨ho2, hi2⟩ := tryPages_fields t b (List.range (st.dm.GetPageCount t).toNat) st
  exact ⟨ho.trans ho2, hi.trans hi2⟩

theorem insertRecordFinish_spec (st2 : FSL) (t : String) (pid : Int)
    (pr : Page × Except Err Nat) (ps : Int × Nat)
    (hok : (st2.insertRecordFinish t pid pr).2 = .ok ps) :
    pr.2 = .ok ps.2 ∧ ps.1 = pid ∧
      st2.insertRecordFinish t pid pr = (st2.cacheSet t pid pr.1, .ok ps) := by
  rcases pr with ⟨p, e⟩
  cases e with
  | error e => cases hok
  | ok s =>
      injection hok with h
      subst h
      exact ⟨rfl, rfl, rfl⟩

theorem insertRecordAfter_ok_WF (st1 : FSL) (t : String) (b : List Nat)
    (o : Option (Int × Nat)) (ps : Int × Nat)
    (hWF : StateWF st1)
    (hprev : ∀ ps' : Int × Nat, o = some ps' →
      ∃ p : Page, PageInv p ∧ (p.InsertRecord b).2 = .ok ps'.2 ∧
        st1.cacheGet t ps'.1 = some (p.InsertRecord b).1)
    (hok : (st1.insertRecordAfter t b o).2 = .ok ps) :
    StateWF (st1.insertRecordAfter t b o).1 ∧
      ∃ p : Page, PageInv p ∧ (p.InsertRecord b).2 = .ok ps.2 ∧
        (st1.insertRecordAfter t b o).1.cacheGet t ps.1 = some (p.InsertRecord b).1 := by
  cases o with
  | some ps' =>
      have h : ps' = ps := by injection hok
      subst h
      exact ⟨hWF, hprev ps' rfl⟩
  | none =>
      obtain ⟨hins, hpid, heq⟩ := insertRecordFinish_spec
        { st1 with dm := (st1.dm.AllocatePage st1.fs t).1, fs := (st1.dm.AllocatePage st1.fs t).2.1 } t
        ((st1.dm.AllocatePage st1.fs t).2.2)
        ((NewPage ((st1.dm.AllocatePage st1.fs t).2.2)).InsertRecord b) ps hok
      have hWF2 : StateWF { st1 with dm := (st1.dm.AllocatePage st1.fs t).1, fs := (st1.dm.AllocatePage st1.fs t).2.1 } := by
        constructor
        · intro t' pid' q hq
          exact hWF.1 t' pid' q hq
        · apply DiskWF_of_contentOf_eq _ _ _ hWF.2
          intro s
          show contentOf (st1.dm.AllocatePage st1.fs t).2.1 s = _
          rw [AllocatePage_fs]
          exact contentOf_getFile _ _ t s
      have hres : st1.insertRecordAfter t b none
          = ({ st1 with dm := (st1.dm.AllocatePage st1.fs t).1, fs := (st1.dm.AllocatePage st1.fs t).2.1 }.cacheSet t
              ((st1.dm.AllocatePage st1.fs t).2.2)
              ((NewPage ((st1.dm.AllocatePage st1.fs t).2.2)).InsertRecord b).1, .ok ps) := heq
      rw [hres]
      refine ⟨StateWF_cacheSet _ _ _ _ hWF2 (pageInv_insert _ b (pageInv_newPage _)),
        NewPage ((st1.dm.AllocatePage st1.fs t).2.2), pageInv_newPage _, hins, ?_⟩
      rw [hpid]
      exact cacheSet_cacheGet_self _ _ _ _

theorem insertRecord_ok_WF (st : FSL) (t : String) (b : List Nat) (ps : Int × Nat)
    (hWF : StateWF st) (hok : (st.insertRecord t b).2 = .ok ps) :
    StateWF (st.insertRecord t b).1 ∧
      ∃ p : Page, PageInv p ∧ (p.InsertRecord b).2 = .ok ps.2 ∧
        (st.insertRecord t b).1.cacheGet t ps.1 = some (p.InsertRecord b).1 := by
  have htp := tryPages_ok_WF t b (List.range (st.dm.GetPageCount t).toNat) st hWF
  exact insertRecordAfter_ok_WF
    (st.tryPages t b (List.range (st.dm.GetPageCount t).toNat)).1 t b
    (st.tryPages t b (List.range (st.dm.GetPageCount t).toNat)).2 ps htp.1
    (fun ps' h => htp.2 ps' h) hok

theorem get_cached_ok (stF : FSL) (t : String) (id : Int) (idx : SimpleIndex)
    (rid : RecordID) (pg : Page) (b : List Nat)
    (hopen : stF.isOpen = true) (hidx : stF.indexes t = some idx)
    (hsearch : idx.Search id = some rid)
    (hcache : stF.cacheGet t rid.PageID = some pg)
    (hget : pg.GetRecord rid.SlotID = .ok b) :
    (stF.Get t id).2 = .ok b := by
  unfold FSL.Get
  rw [if_neg (by simp [hopen])]
  simp only [hidx, hsearch]
  have hgp : stF.getPage t rid.PageID = (stF, .ok pg) := by
    unfold FSL.getPage
    simp only [hcache]
  simp only [hgp, hget]

/-- C3 (amended): on a well-formed open storage layer, after a
successful `Insert` of a **non-empty** byte string `b` returning `id`,
the table's index maps `id` to the physical location `(pageID, slotID)`
where `b` was placed — `GetRecord` on the cached page at that location
returns exactly `b` — and a subsequent `Get` returns exactly `b`. -/
theorem C3_insert_get_roundtrip (st : FSL) (t : String) (b : List Nat) (id : Int)
    (hWF : StateWF st) (hb : b ≠ []) (hbytes : ∀ x ∈ b, x < 256)
    (hok : (st.Insert t b).2 = .ok id) :
    ∃ (idx : SimpleIndex) (rid : RecordID),
      ((st.Insert t b).1).indexes t = some idx ∧
      idx.Search id = some rid ∧
      (∃ pg : Page, ((st.Insert t b).1).cacheGet t rid.PageID = some pg ∧
        pg.GetRecord rid.SlotID = .ok b) ∧
      (((st.Insert t b).1).Get t id).2 = .ok b := by
  unfold FSL.Insert at hok ⊢
  cases hopen : st.isOpen with
  | false =>
      rw [if_pos (by simp [hopen])] at hok
      cases hok
  | true =>
      rw [if_neg (by simp [hopen])] at hok ⊢
      by_cases hex : st.TableExists t
      · rw [if_neg (by simp [hex])] at hok ⊢
        cases hir : (st.insertRecord t b).2 with
        | error e =>
            simp only [hir] at hok
            cases hok
        | ok ps =>
            simp only [hir] at hok ⊢
            obtain ⟨hWF1, p, hpInv, hpok, hcache⟩ := insertRecord_ok_WF st t b ps hWF hir
            cases hidx : (st.insertRecord t b).1.indexes t with
            | none =>
                simp only [hidx] at hok
                cases hok
            | some idx =>
                simp only [hidx] at hok ⊢
                injection hok with hok
                have hpg : (p.InsertRecord b).1.GetRecord ps.2 = .ok b := by
                  rw [insert_ok_slot p b ps.2 hpok]
                  exact insert_GetRecord p b hpInv (insert_ok_fits p b ps.2 hpok) hb hbytes
                have hsr : ((idx.Insert { PageID := ps.1, SlotID := ps.2 }).1).Search id
                    = some { PageID := ps.1, SlotID := ps.2 } := by
                  show (fun k => if k = idx.nextID
                    then some ({ PageID := ps.1, SlotID := ps.2 } : RecordID)
                    else idx.index k) id = _
                  rw [← hok]
                  show (if idx.nextID = idx.nextID then _ else _) = _
                  rw [if_pos rfl]
                refine ⟨(idx.Insert { PageID := ps.1, SlotID := ps.2 }).1,
                  { PageID := ps.1, SlotID := ps.2 }, by simp, hsr,
                  ⟨(p.InsertRecord b).1, hcache, hpg⟩, ?_⟩
                apply get_cached_ok _ t id ((idx.Insert { PageID := ps.1, SlotID := ps.2 }).1)
                  { PageID := ps.1, SlotID := ps.2 } (p.InsertRecord b).1 b
                · show (st.insertRecord t b).1.isOpen = true
                  rw [(insertRecord_fields st t b).1]
                  exact hopen
                · simp
                · exact hsr
                · exact hcache
                · exact hpg
      · rw [if_pos (by simp [hex])] at hok
        cases hok

/-! ## Index operation sequences (for the monotone-ID law) -/

/-- A mutating operation on a `SimpleIndex` within one table lifetime
(`Load`/`Save` only concern persistence; `Search`/`GetAllRecords` are
pure reads). -/
inductive IdxOp where
  | insOp (rid : RecordID)
  | delOp (id : Int)
  | updOp (id : Int) (rid : RecordID)

/-- Apply one index operation; the list collects the logical ID issued
by an `Insert` (the other operations issue none). -/
def applyIdxOp (si : SimpleIndex) : IdxOp → SimpleIndex × List Int
  | .insOp rid => ((si.Insert rid).1, [(si.Insert rid).2])
  | .delOp id => ((si.Delete id).1, [])
  | .updOp id rid => ((si.Update id rid).1, [])

/-- Run a sequence of index operations, collecting all issued IDs in
order. -/
def runIdxOps (si : SimpleIndex) : List IdxOp → SimpleIndex × List Int
  | [] => (si, [])
  | op :: rest =>
      ((runIdxOps (applyIdxOp si op).1 rest).1,
        (applyIdxOp si op).2 ++ (runIdxOps (applyIdxOp si op).1 rest).2)

/-- Number of `Insert` operations in a sequence. -/
def insCount : List IdxOp → Nat
  | [] => 0
  | .insOp _ :: rest => insCount rest + 1
  | .delOp _ :: rest => insCount rest
  | .updOp _ _ :: rest => insCount rest

/-- `[n, n+1, ..., n+k-1]` over the integers. -/
def intRange (n : Int) : Nat → List Int
  | 0 => []
  | k + 1 => n :: intRange (n + 1) k

theorem intRange_mem {k : Nat} : ∀ {n m : Int}, m ∈ intRange n k → n ≤ m := by
  induction k with
  | zero => intro n m h; simp [intRange] at h
  | succ k ih =>
      intro n m h
      rcases List.mem_cons.mp h with h | h
      · omega
      · have := ih h; omega

theorem intRange_pairwise (k : Nat) : ∀ n : Int, (intRange n k).Pairwise (· < ·) := by
  induction k with
  | zero => intro n; simp [intRange]
  | succ k ih =>
      intro n
      refine List.Pairwise.cons ?_ (ih (n + 1))
      intro m hm
      have := intRange_mem hm
      omega

theorem delete_nextID (si : SimpleIndex) (id : Int) :
    (si.Delete id).1.nextID = si.nextID := by
  unfold SimpleIndex.Delete
  cases h : si.index id <;> simp

theorem update_nextID (si : SimpleIndex) (id : Int) (rid : RecordID) :
    (si.Update id rid).1.nextID = si.nextID := by
  unfold SimpleIndex.Update
  cases h : si.index id <;> simp

theorem runIdxOps_issued (ops : List IdxOp) : ∀ si : SimpleIndex,
    (runIdxOps si ops).2 = intRange si.nextID (insCount ops) ∧
      (runIdxOps si ops).1.nextID = si.nextID + insCount ops := by
  induction ops with
  | nil => intro si; simp [runIdxOps, insCount, intRange]
  | cons op rest ih =>
      intro si
      cases op with
      | insOp rid =>
          obtain ⟨ha, hb⟩ := ih (applyIdxOp si (.insOp rid)).1
          have h1 : (applyIdxOp si (.insOp rid)).1.nextID = si.nextID + 1 := rfl
          rw [h1] at ha hb
          constructor
          · show (applyIdxOp si (.insOp rid)).2 ++ (runIdxOps _ rest).2 = _
            rw [ha]
            show si.nextID :: intRange (si.nextID + 1) (insCount rest) = _
            rw [show insCount (.insOp rid :: rest) = insCount rest + 1 from rfl]
            rfl
          · show (runIdxOps _ rest).1.nextID = _
            rw [hb, show insCount (.insOp rid :: rest) = insCount rest + 1 from rfl]
            push_cast; ring
      | delOp id =>
          obtain ⟨ha, hb⟩ := ih (applyIdxOp si (.delOp id)).1
          have h1 : (applyIdxOp si (.delOp id)).1.nextID = si.nextID := delete_nextID si id
          rw [h1] at ha hb
          exact ⟨by simpa [runIdxOps, insCount] using ha,
            by simpa [runIdxOps, insCount] using hb⟩
      | updOp id rid =>
          obtain ⟨ha, hb⟩ := ih (applyIdxOp si (.updOp id rid)).1
          have h1 : (applyIdxOp si (.updOp id rid)).1.nextID = si.nextID :=
            update_nextID si id rid
          rw [h1] at ha hb
          exact ⟨by simpa [runIdxOps, insCount] using ha,
            by simpa [runIdxOps, insCount] using hb⟩

/-- C10: For every table, the sequence of logical record IDs returned by
successive successful Inserts — across any interleaving of index
operations starting from `NewSimpleIndex` — is exactly `1, 2, ...,
#inserts`: strictly increasing, starting at 1, and no ID is ever issued
twice, deletions included. -/
theorem C10_monotonic_ids (ops : List IdxOp) :
    (runIdxOps NewSimpleIndex ops).2 = intRange 1 (insCount ops) ∧
      (runIdxOps NewSimpleIndex ops).2.Pairwise (· < ·) ∧
      ∀ id ∈ (runIdxOps NewSimpleIndex ops).2, 1 ≤ id := by
  have h := (runIdxOps_issued ops NewSimpleIndex).1
  have hN : NewSimpleIndex.nextID = 1 := rfl
  rw [hN] at h
  refine ⟨h, ?_, ?_⟩
  · rw [h]; exact intRange_pairwise _ 1
  · intro id hid
    rw [h] at hid
    exact intRange_mem hid

/-! ## Concrete inputs used by the remaining claims -/

/-- A schema with a single non-nullable INT column. -/
def intCol : Schema :=
  { Columns := [{ Name := "n", Ctype := TypeInt, Length := 0, Nullable := false }] }

/-- C1: the spec's round-trip law fails for negative INT values: the
serializer emits the two's-complement bytes of `-1`, but
`deserializeField` converts `uint32 → int` without sign extension, so the
value comes back as `4294967295 ≠ -1`. -/
theorem C1_signed_int_roundtrip_fails :
    Serialize intCol [some (.vint (-1))] = .ok [0, 255, 255, 255, 255] ∧
      Deserialize intCol [0, 255, 255, 255, 255] = .ok [some (.vint 4294967295)] ∧
      (Except.ok [some (GoValue.vint 4294967295)] : Except Err (List (Option GoValue))) ≠
        .ok [some (.vint (-1))] := by
  refine ⟨by decide, by decide, by decide⟩

/-- An empty schema (column list plays no role at the storage layer). -/
def emptySchema : Schema := { Columns := [] }

/-- A freshly opened storage layer holding one table `"t"` with an empty
index, empty page cache, fresh disk manager and no files on disk. -/
def st0 : FSL :=
  { isOpen := true
    catalog := fun s => if s = "t" then some emptySchema else none
    pageCache := fun s => if s = "t" then some (fun _ => none) else none
    indexes := fun s => if s = "t" then some NewSimpleIndex else none
    dm := NewDiskManager
    fs := fun _ => none }

/-- A freshly opened storage layer with an empty catalog. -/
def stOpenEmpty : FSL :=
  { isOpen := true, catalog := fun _ => none, pageCache := fun _ => none
    indexes := fun _ => none, dm := NewDiskManager, fs := fun _ => none }

/-- C4: on an open layer whose catalog does not contain the table,
`Get`, `Update` and `DeleteRecord` do not return an error: they reach
`fsl.indexes[tableName]` — a nil pointer for an unknown table — and the
method call on it is a runtime panic, unlike `Insert`, which checks
`TableExists` and returns an error. -/
theorem C4_missing_table_crud_panics :
    (stOpenEmpty.Get "ghost" 1).2 = .nilPanic ∧
      (stOpenEmpty.Update "ghost" 1 [1]).2 = .nilPanic ∧
      (stOpenEmpty.DeleteRecord "ghost" 1).2 = .nilPanic ∧
      (stOpenEmpty.Insert "ghost" [1]).2 = .err .unknownTable := by
  refine ⟨by decide, by decide, by decide, by decide⟩

/-- A file system holding a one-page (4096-byte) heap file for `"t"`. -/
def fs1 : FileSys := fun s => if s = "t" then some (List.replicate 4096 0) else none

/-- C5 counterexample: with a one-page heap file on disk (`N = 1`) and a
fresh disk manager, calling `GetPageCount` as the first operation on the
table returns 0, not `N`: the counter is only initialized inside
`getFile`, which `GetPageCount` never calls. -/
theorem C5_counterexample_first_getPageCount :
    ((fs1 "t").getD []).length = 1 * 4096 ∧
      DM.GetPageCount NewDiskManager "t" = 0 ∧
      DM.GetPageCount NewDiskManager "t" ≠ 1 := by
  refine ⟨?_, rfl, by decide⟩
  show (List.replicate 4096 (0 : Nat)).length = 1 * 4096
  rw [List.length_replicate]

/-- C5 (amended): the counter for a table with an `N`-page heap file is
initialized to `N = fileSize / PageSize` on the first **file** access
(`getFile`, reached via ReadPage / WritePage / AllocatePage — not via
`GetPageCount`), and `GetPageCount` returns the current counter, which is
0 before any such access. -/
theorem C5_page_counter_init (dm : DM) (fs : FileSys) (t : String) (c : List Nat) (n : Nat)
    (hh : dm.handles t = false) (hc : dm.pageCounter t = none)
    (hf : fs t = some c) (hlen : c.length = n * 4096) (hn : n < 2147483648) :
    DM.GetPageCount dm t = 0 ∧
      ((dm.getFile fs t).1).pageCounter t = some n ∧
      DM.GetPageCount (dm.getFile fs t).1 t = n := by
  have h1 : ((c.length : Int) / (PageSize : Int)) = n := by
    rw [hlen]; push_cast; rw [PageSize]; push_cast
    exact Int.mul_ediv_cancel _ (by norm_num)
  have h2 : toInt32 ((c.length : Int) / (PageSize : Int)) = n := by
    rw [h1]; unfold toInt32; omega
  have hmain : ((dm.getFile fs t).1).pageCounter t = some n := by
    unfold DM.getFile
    rw [hh]
    simp only [Bool.false_eq_true, if_false, hc, hf, Option.isSome_none, Option.getD_some]
    simp [h2]
  refine ⟨?_, hmain, ?_⟩
  · unfold DM.GetPageCount; rw [hc]; rfl
  · unfold DM.GetPageCount; rw [hmain]; rfl

/-- Witness for C5: the concrete one-page file of the counterexample. -/
theorem C5_page_counter_init_witness :
    DM.GetPageCount NewDiskManager "t" = 0 ∧
      DM.GetPageCount (NewDiskManager.getFile fs1 "t").1 "t" = 1 := by
  have h := C5_page_counter_init NewDiskManager fs1 "t" (List.replicate 4096 0) 1
    rfl rfl rfl (by rw [List.length_replicate]) (by norm_num)
  exact ⟨h.1, h.2.2⟩

theorem StateWF_st0 : StateWF st0 := by
  constructor
  · intro t pid p h
    unfold FSL.cacheGet st0 at h
    by_cases ht : t = "t" <;> simp [ht] at h
  · intro dm t pid data pg hread hload
    exfalso
    have h := (ReadPage_ok_iff dm st0.fs t pid data).mp hread
    have hlen : (contentOf st0.fs t).length = 0 := rfl
    rw [hlen] at h
    have h1 := h.1
    have h2 := h.2.1
    simp [PageSize] at h1 h2
    omega

/-- Witness for C3 at a concrete state: a fresh open layer with one
table; inserting `[42]` returns id 1 and `Get` reads back `[42]`. -/
theorem C3_insert_get_roundtrip_witness :
    (st0.Insert "t" [42]).2 = .ok 1 ∧
      (((st0.Insert "t" [42]).1).Get "t" 1).2 = .ok [42] := by
  have hok : (st0.Insert "t" [42]).2 = .ok 1 := by decide
  obtain ⟨idx, rid, _, _, _, hget⟩ := C3_insert_get_roundtrip st0 "t" [42] 1
    StateWF_st0 (by simp) (by intro x hx; simp at hx; omega) hok
  exact ⟨hok, hget⟩

/-- Witness for C9 at a concrete state: delete the single record of a
one-record table, then `Get` fails with NotFound. -/
theorem C9_delete_then_get_notfound_witness :
    (((st0.Insert "t" [42]).1).DeleteRecord "t" 1).2 = .ok () ∧
      ((((st0.Insert "t" [42]).1).DeleteRecord "t" 1).1.Get "t" 1).2 = .err .notFound := by
  have hdel : (((st0.Insert "t" [42]).1).DeleteRecord "t" 1).2 = .ok () := by decide
  obtain ⟨idx1, _, _, h3⟩ :=
    C9_delete_then_get_notfound ((st0.Insert "t" [42]).1) "t" 1 hdel
  exact ⟨hdel, h3⟩

/-- C3 counterexample: inserting the **empty** byte string succeeds
(returning ID 1) because `InsertRecord` accepts a zero-length record, but
the written slot has `Size = 0` — a tombstone — so the subsequent `Get`
fails with the empty-slot error instead of returning the inserted
bytes. -/
theorem C3_counterexample_empty_record :
    (st0.Insert "t" []).2 = .ok 1 ∧
      ((st0.Insert "t" []).1.Get "t" 1).2 = .err .emptySlot ∧
      (RunRes.err .emptySlot : RunRes (List Nat)) ≠ .ok [] := by
  refine ⟨by decide, by decide, by decide⟩

end StorageModel
